import Mathlib

/-!
Verification development for the bin-packing optimizer core.

The definitions below are a shallow embedding, translated from the Python
sources in `src/`:
* `Opt1`, `Opt2`, `Opt3` embed the three per-dimension optimizers
  (`core/algorithms/optimizer_1d.py`, `optimizer_2d.py`, `optimizer_3d.py`)
  together with the rotation generator of `core/algorithms/base_optimizer.py`.
* `Val` embeds the data-model construction checks of
  `models/data_structures.py` and the validators of `models/validation.py`.
* `PyMod` models the module-level name binding of `optimizer_1d.py`
  relevant to its missing `import time`.

Modelling conventions: Python ints are `Int` (quantities that are known
non-negative are `Nat`); Python floats are `ℚ` (the float literal `0.1`
is read as the rational `1/10`); a Python `dict` keyed by strings is a
function `String → Nat`; code paths that raise (`IndexError` on genome
access, `ZeroDivisionError` on a zero container extent) are `Option`
with `none` for the raising run.
-/

namespace BinPack

/-- Ghost record of what happened for one package type in one container:
how many units the genome requested, how many were placed, and how many
unit attempts the placement loop made. -/
structure PkgStat where
  name : String
  requested : Nat
  successes : Nat
  attempts : Nat
deriving DecidableEq

/-- Total successes recorded for key `k` in one container's stats. -/
def succSum (k : String) (es : List PkgStat) : Nat :=
  ((es.filter fun e => e.name = k).map fun e => e.successes).sum

/-- Total successes recorded for key `k` across all containers. -/
def trSucc (k : String) (tr : List (String × List PkgStat)) : Nat :=
  (tr.map fun ce => succSum k ce.2).sum

/-- The fail-fast contract for one package type in one container: the loop
makes at most `requested` unit attempts, and either every requested unit
was attempted and placed, or there was exactly one failing attempt — the
attempt directly after the last success — after which no further unit of
the type was attempted. -/
def statOk (e : PkgStat) : Prop :=
  e.attempts ≤ e.requested ∧
  ((e.attempts = e.requested ∧ e.successes = e.requested) ∨ e.successes + 1 = e.attempts)

namespace Opt2

/-- A 2D package, from `models/data_structures.py` (`Package`), specialised to
dimension tuples of length 2 as required by `Optimizer2D._decode_solution`. -/
structure Package where
  name : String
  width : Nat
  height : Nat
  min_quantity : Nat
  max_quantity : Nat
deriving DecidableEq

/-- A 2D container, from `models/data_structures.py` (`Container`). -/
structure Container where
  id : String
  width : Nat
  height : Nat
  is_optional : Bool
deriving DecidableEq

/-- The parts of `PackingProblem` used by `Optimizer2D`. -/
structure Problem where
  packages : List Package
  containers : List Container
  allowed_rotations : Option (List (List Bool))
deriving DecidableEq

/-- A placed package, from `models/data_structures.py` (`PlacedPackage`),
with 2D position and dimensions. -/
structure PlacedPackage where
  package_name : String
  x : Nat
  y : Nat
  w : Nat
  h : Nat
  rotation : Option String
deriving DecidableEq

/-- Scan for the two-character pattern searched by `'_r' in name`. -/
def rotMarkAux : List Char → Bool
  | '_' :: 'r' :: _ => true
  | _ :: rest => rotMarkAux rest
  | [] => false

/-- Test for the Python expression `'_r' in name`. -/
def hasRotMark (s : String) : Bool := rotMarkAux s.toList

/-- Rotation generator for a 2D package, from
`BaseOptimizer._generate_rotations` (the `len(dims) == 2` branch);
the original orientation always comes first.  An empty rotation list is
falsy in Python, hence treated like `None`. -/
def generate_rotations (prob : Problem) (p : Package) (i : Nat) : List (String × Nat × Nat) :=
  let base := [(p.name, p.width, p.height)]
  match prob.allowed_rotations with
  | none => base
  | some ar =>
    if ar = [] then base
    else if h : i < ar.length then
      let perms := ar.get ⟨i, h⟩
      if 1 ≤ perms.length && perms.headI then
        if p.width ≠ p.height then base ++ [(p.name ++ "_r90", p.height, p.width)] else base
      else base
    else base

/-- Overlap-freedom check for a candidate position, from
`Optimizer2D._can_place_2d`. -/
def can_place_2d (placed : List PlacedPackage) (x y w h : Nat) : Bool :=
  placed.all fun p =>
    decide (x + w ≤ p.x) || decide (p.x + p.w ≤ x) ||
    decide (y + h ≤ p.y) || decide (p.y + p.h ≤ y)

/-- Candidate positions scanned by `_decode_solution`:
`for y in range(0, H - h + 1): for x in range(0, W - w + 1)`,
in that (bottom-left) order. -/
def candPositions (W H w h : Nat) : List (Nat × Nat) :=
  (List.range (H + 1 - h)).flatMap fun y =>
    (List.range (W + 1 - w)).map fun x => (x, y)

/-- First admissible position for a `w × h` box, in bottom-left scan order. -/
def findPosition (placed : List PlacedPackage) (W H w h : Nat) : Option (Nat × Nat) :=
  (candPositions W H w h).find? fun pos => can_place_2d placed pos.1 pos.2 w h

/-- Attempt to place one unit, trying the orientations in generator order
(the `for rotation in rotations` loop of `_decode_solution`). -/
def tryRotations (placed : List PlacedPackage) (W H : Nat) :
    List (String × Nat × Nat) → Option PlacedPackage
  | [] => none
  | (name, w, h) :: rest =>
    match findPosition placed W H w h with
    | some pos => some ⟨name, pos.1, pos.2, w, h, if hasRotMark name then some name else none⟩
    | none => tryRotations placed W H rest

/-- Saturating decrement of the `unplaced_packages` dict
(`if unplaced_packages[base_name] > 0: unplaced_packages[base_name] -= 1`). -/
def decUnplaced (m : String → Nat) (n : String) : String → Nat :=
  fun k => if k = n then m k - 1 else m k

/-- Placement state threaded through one container: the `placed_packages`
list and the (global) `unplaced_packages` dict. -/
structure PlaceState where
  placed : List PlacedPackage
  unplaced : String → Nat

/-- The per-unit loop `for _ in range(quantity)` of `_decode_solution`:
on a successful attempt the unit is recorded and the loop continues; on a
failed attempt the loop exits (`if not placed: break`).  Besides the state
it returns ghost statistics: how many units were placed and how many unit
attempts were made; these do not influence the state. -/
def placeUnits (rots : List (String × Nat × Nat)) (baseName : String) (W H : Nat) :
    Nat → PlaceState → PlaceState × Nat × Nat
  | 0, st => (st, 0, 0)
  | q + 1, st =>
    match tryRotations st.placed W H rots with
    | none => (st, 0, 1)
    | some pp =>
      let st2 : PlaceState := ⟨st.placed ++ [pp], decUnplaced st.unplaced baseName⟩
      let r := placeUnits rots baseName W H q st2
      (r.1, r.2.1 + 1, r.2.2 + 1)

/-- The per-package loop `for package, quantity in zip(...)` of
`_decode_solution`, in package-list order. -/
def placePackages (prob : Problem) (W H : Nat) :
    List (Package × Int) → PlaceState → PlaceState × List PkgStat
  | [], st => (st, [])
  | (p, q) :: rest, st =>
    let rots := generate_rotations prob p (prob.packages.indexOf p)
    let r := placeUnits rots p.name W H q.toNat st
    let r2 := placePackages prob W H rest r.1
    (r2.1, ⟨p.name, q.toNat, r.2.1, r.2.2⟩ :: r2.2)

/-- `ContainerSolution` of `models/optimization_result.py` (2D form). -/
structure ContainerSolution where
  container : Container
  placed_packages : List PlacedPackage
  utilization_rate : ℚ

/-- `OptimizationResult` of `models/optimization_result.py`, restricted to the
fields `_decode_solution` computes. -/
structure OptimizationResult where
  container_solutions : List ContainerSolution
  total_efficiency : ℚ
  unused_containers : List Container
  unplaced_packages : String → Nat

/-- `containers_used` property of `OptimizationResult`. -/
def containers_used (r : OptimizationResult) : Nat := r.container_solutions.length

/-- The container loop of `Optimizer2D._decode_solution`, with the gene
cursor represented by the not-yet-consumed suffix of the genome.  `none`
models an `IndexError` (genome too short for a gene that is actually read)
or a `ZeroDivisionError` (utilization of a zero-area container).  The last
component is a ghost trace of the per-package statistics for each used
container. -/
def decodeContainers (prob : Problem) :
    List Container → List Int → (String → Nat) →
    Option (List ContainerSolution × List Container × (String → Nat) ×
      List (String × List PkgStat))
  | [], _, unplaced => some ([], [], unplaced, [])
  | c :: cs, genes, unplaced =>
    match genes with
    | [] => none
    | g :: genes2 =>
      if g = 0 then
        match decodeContainers prob cs (genes2.drop prob.packages.length) unplaced with
        | none => none
        | some (sols, unused, unp, tr) => some (sols, c :: unused, unp, tr)
      else
        if genes2.length < prob.packages.length then none
        else
          let qs := genes2.take prob.packages.length
          let r := placePackages prob c.width c.height (prob.packages.zip qs) ⟨[], unplaced⟩
          let st := r.1
          let pstats := r.2
          if st.placed = [] then
            match decodeContainers prob cs (genes2.drop prob.packages.length) st.unplaced with
            | none => none
            | some (sols, unused, unp, tr) => some (sols, c :: unused, unp, (c.id, pstats) :: tr)
          else
            if c.width * c.height = 0 then none
            else
              let used : Nat := (st.placed.map fun pp => pp.w * pp.h).sum
              let sol : ContainerSolution :=
                ⟨c, st.placed, (used : ℚ) / ((c.width * c.height : Nat) : ℚ)⟩
              match decodeContainers prob cs (genes2.drop prob.packages.length) st.unplaced with
              | none => none
              | some (sols, unused, unp, tr) =>
                some (sol :: sols, unused, unp, (c.id, pstats) :: tr)

/-- Initial `unplaced_packages` dict:
`{pkg.name: pkg.max_quantity for pkg in self.problem.packages}`
(later bindings overwrite earlier ones, as in a dict comprehension). -/
def initUnplaced (prob : Problem) : String → Nat :=
  prob.packages.foldl (fun m p => fun k => if k = p.name then p.max_quantity else m k)
    (fun _ => 0)

/-- `Optimizer2D._decode_solution`, with the ghost per-package trace. -/
def decodeWithStats (prob : Problem) (genome : List Int) :
    Option (OptimizationResult × List (String × List PkgStat)) :=
  match decodeContainers prob prob.containers genome (initUnplaced prob) with
  | none => none
  | some (sols, unused, unp, tr) =>
    let eff : ℚ :=
      if sols.isEmpty then 0 else (sols.map fun s => s.utilization_rate).sum / (sols.length : ℚ)
    some (⟨sols, eff, unused, unp⟩, tr)

/-- `Optimizer2D._decode_solution` (the value the Python method returns). -/
def decode_solution (prob : Problem) (genome : List Int) : Option OptimizationResult :=
  (decodeWithStats prob genome).map Prod.fst

/-- `Optimizer2D._evaluate_fitness`: any exception inside the `try` block
(a decode error, or the `ZeroDivisionError` of `containers_used /
total_containers` when the container list is empty) yields fitness `0`. -/
def evaluate_fitness (prob : Problem) (genome : List Int) : ℚ :=
  match decode_solution prob genome with
  | none => 0
  | some r =>
    if prob.containers.length = 0 then 0
    else r.total_efficiency *
      (1 - ((containers_used r : ℚ) / (prob.containers.length : ℚ)) * (1/10))

/-- The per-gene walk of `_mutate_individual` over the package-quantity genes
of one container block (`for package in packages` with `gene_idx`); `some`
means the Python `return` with the resampled gene, the second component is
the gene counter on fall-through.  `freshFor p` models the value drawn by
`random.randint(p.min_quantity, p.max_quantity)`. -/
def mutateWalkP (idx : Nat) (freshFor : Package → Int) (ind : List Int) :
    List Package → Nat → Option (List Int) × Nat
  | [], g => (none, g)
  | p :: ps, g =>
    if g = idx then (some (ind.set idx (freshFor p)), g)
    else mutateWalkP idx freshFor ind ps (g + 1)

/-- The container walk of `Optimizer2D._mutate_individual`: a usage gene is
flipped only when its container `is_optional`; otherwise the walk continues
(and can never match `idx` again). -/
def mutateWalkC (packages : List Package) (idx : Nat) (freshFor : Package → Int)
    (ind : List Int) : List Container → Nat → List Int
  | [], _ => ind
  | c :: cs, g =>
    if g = idx && c.is_optional then ind.set idx (1 - ind.getD idx 0)
    else
      match mutateWalkP idx freshFor ind packages (g + 1) with
      | (some res, _) => res
      | (none, g2) => mutateWalkC packages idx freshFor ind cs g2

/-- `Optimizer2D._mutate_individual`: `r` models the inner `random.random()`
draw compared against the hard-coded `0.1`, `idx` the uniformly drawn gene
index `random.randint(0, len(individual) - 1)`. -/
def mutate_individual (prob : Problem) (r : ℚ) (idx : Nat) (freshFor : Package → Int)
    (ind : List Int) : List Int :=
  if r < 1/10 then mutateWalkC prob.packages idx freshFor ind prob.containers 0 else ind

/-- One individual's mutation step inside `optimize`
(`if random.random() < self.mutation_probability: self.toolbox.mutate(mutant)`);
`rOuter` models that outer draw. -/
def mutationStep (prob : Problem) (pmut rOuter r : ℚ) (idx : Nat)
    (freshFor : Package → Int) (ind : List Int) : List Int :=
  if rOuter < pmut then mutate_individual prob r idx freshFor ind else ind

/-- Which gene a layout offset `off` addresses within the container suffix
`cs`: each container block is one usage gene followed by one quantity gene
per package.  `Sum.inl` is a usage gene, `Sum.inr` a quantity gene; `none`
means the offset is past the layout. -/
def geneKindFrom (packages : List Package) (cs : List Container) (off : Nat) :
    Option (Container ⊕ Package) :=
  let block := packages.length + 1
  if off / block < cs.length then
    if off % block = 0 then (cs.get? (off / block)).map Sum.inl
    else (packages.get? (off % block - 1)).map Sum.inr
  else none

/-- Which gene of the flat layout index `idx` addresses. -/
def geneKind (prob : Problem) (idx : Nat) : Option (Container ⊕ Package) :=
  geneKindFrom prob.packages prob.containers idx

/-- What one mutation does to the gene classified by `geneKind`: an optional
container's usage gene is flipped, a non-optional one is left unchanged, a
quantity gene is resampled, and an out-of-layout index changes nothing. -/
def applyKind (idx : Nat) (freshFor : Package → Int) (ind : List Int) :
    Option (Container ⊕ Package) → List Int
  | some (Sum.inl c) => if c.is_optional then ind.set idx (1 - ind.getD idx 0) else ind
  | some (Sum.inr p) => ind.set idx (freshFor p)
  | none => ind

end Opt2

namespace Opt1

/-- A 1D package, from `models/data_structures.py` (`Package`). -/
structure Package where
  name : String
  length : Nat
  min_quantity : Nat
  max_quantity : Nat
deriving DecidableEq

/-- A 1D container, from `models/data_structures.py` (`Container`). -/
structure Container where
  id : String
  length : Nat
  is_optional : Bool
deriving DecidableEq

/-- The parts of `PackingProblem` used by `Optimizer1D`. -/
structure Problem where
  packages : List Package
  containers : List Container
  allowed_rotations : Option (List (List Bool))
deriving DecidableEq

/-- A placed package with 1D position and dimensions. -/
structure PlacedPackage where
  package_name : String
  position : Nat
  length : Nat
  rotation : Option String
deriving DecidableEq

/-- Rotation generator for a 1D package: in
`BaseOptimizer._generate_rotations` neither the `len(dims) == 2` nor the
`len(dims) == 3` branch applies, so only the original orientation is
produced. -/
def generate_rotations (p : Package) : List (String × Nat) := [(p.name, p.length)]

/-- Saturating decrement of the `unplaced_packages` dict. -/
def decUnplaced (m : String → Nat) (n : String) : String → Nat :=
  fun k => if k = n then m k - 1 else m k

/-- Placement state threaded through one container: `placed_packages`, the
running fill cursor `current_position`, and the `unplaced_packages` dict. -/
structure PlaceState where
  placed : List PlacedPackage
  cur : Nat
  unplaced : String → Nat

/-- One unit attempt of `Optimizer1D._decode_solution`: the single
orientation is placed at `current_position` iff
`current_position + length <= container.dimensions[0]`.  The tuple
`(name, length)` has `len > 1`, so the recorded `rotation` is `name`. -/
def tryRotations (cur L : Nat) : List (String × Nat) → Option PlacedPackage
  | [] => none
  | (name, len) :: rest =>
    if cur + len ≤ L then some ⟨name, cur, len, some name⟩
    else tryRotations cur L rest

/-- The per-unit loop of `Optimizer1D._decode_solution` with ghost
success/attempt counts; a failed unit aborts the loop for this package type. -/
def placeUnits (rots : List (String × Nat)) (baseName : String) (L : Nat) :
    Nat → PlaceState → PlaceState × Nat × Nat
  | 0, st => (st, 0, 0)
  | q + 1, st =>
    match tryRotations st.cur L rots with
    | none => (st, 0, 1)
    | some pp =>
      let st2 : PlaceState := ⟨st.placed ++ [pp], st.cur + pp.length,
        decUnplaced st.unplaced baseName⟩
      let r := placeUnits rots baseName L q st2
      (r.1, r.2.1 + 1, r.2.2 + 1)

/-- The per-package loop of `Optimizer1D._decode_solution`, in package-list
order; the fill cursor persists across package types. -/
def placePackages (L : Nat) :
    List (Package × Int) → PlaceState → PlaceState × List PkgStat
  | [], st => (st, [])
  | (p, q) :: rest, st =>
    let rots := generate_rotations p
    let r := placeUnits rots p.name L q.toNat st
    let r2 := placePackages L rest r.1
    (r2.1, ⟨p.name, q.toNat, r.2.1, r.2.2⟩ :: r2.2)

/-- `ContainerSolution` (1D form). -/
structure ContainerSolution where
  container : Container
  placed_packages : List PlacedPackage
  utilization_rate : ℚ

/-- `OptimizationResult` restricted to the fields `_decode_solution`
computes (1D form). -/
structure OptimizationResult where
  container_solutions : List ContainerSolution
  total_efficiency : ℚ
  unused_containers : List Container
  unplaced_packages : String → Nat

/-- `containers_used` property of `OptimizationResult`. -/
def containers_used (r : OptimizationResult) : Nat := r.container_solutions.length

/-- The container loop of `Optimizer1D._decode_solution`; see
`Opt2.decodeContainers` for the conventions. -/
def decodeContainers (prob : Problem) :
    List Container → List Int → (String → Nat) →
    Option (List ContainerSolution × List Container × (String → Nat) ×
      List (String × List PkgStat))
  | [], _, unplaced => some ([], [], unplaced, [])
  | c :: cs, genes, unplaced =>
    match genes with
    | [] => none
    | g :: genes2 =>
      if g = 0 then
        match decodeContainers prob cs (genes2.drop prob.packages.length) unplaced with
        | none => none
        | some (sols, unused, unp, tr) => some (sols, c :: unused, unp, tr)
      else
        if genes2.length < prob.packages.length then none
        else
          let qs := genes2.take prob.packages.length
          let r := placePackages c.length (prob.packages.zip qs) ⟨[], 0, unplaced⟩
          let st := r.1
          let pstats := r.2
          if st.placed = [] then
            match decodeContainers prob cs (genes2.drop prob.packages.length) st.unplaced with
            | none => none
            | some (sols, unused, unp, tr) => some (sols, c :: unused, unp, (c.id, pstats) :: tr)
          else
            if c.length = 0 then none
            else
              let used : Nat := (st.placed.map fun pp => pp.length).sum
              let sol : ContainerSolution := ⟨c, st.placed, (used : ℚ) / (c.length : ℚ)⟩
              match decodeContainers prob cs (genes2.drop prob.packages.length) st.unplaced with
              | none => none
              | some (sols, unused, unp, tr) =>
                some (sol :: sols, unused, unp, (c.id, pstats) :: tr)

/-- Initial `unplaced_packages` dict of `Optimizer1D._decode_solution`. -/
def initUnplaced (prob : Problem) : String → Nat :=
  prob.packages.foldl (fun m p => fun k => if k = p.name then p.max_quantity else m k)
    (fun _ => 0)

/-- `Optimizer1D._decode_solution`, with the ghost per-package trace. -/
def decodeWithStats (prob : Problem) (genome : List Int) :
    Option (OptimizationResult × List (String × List PkgStat)) :=
  match decodeContainers prob prob.containers genome (initUnplaced prob) with
  | none => none
  | some (sols, unused, unp, tr) =>
    let eff : ℚ :=
      if sols.isEmpty then 0 else (sols.map fun s => s.utilization_rate).sum / (sols.length : ℚ)
    some (⟨sols, eff, unused, unp⟩, tr)

/-- `Optimizer1D._decode_solution` (the value the Python method returns). -/
def decode_solution (prob : Problem) (genome : List Int) : Option OptimizationResult :=
  (decodeWithStats prob genome).map Prod.fst

/-- `Optimizer1D._evaluate_fitness`; any exception yields fitness `0`. -/
def evaluate_fitness (prob : Problem) (genome : List Int) : ℚ :=
  match decode_solution prob genome with
  | none => 0
  | some r =>
    if prob.containers.length = 0 then 0
    else r.total_efficiency *
      (1 - ((containers_used r : ℚ) / (prob.containers.length : ℚ)) * (1/10))

/-- The package-quantity walk of `Optimizer1D._mutate_individual`; see
`Opt2.mutateWalkP`. -/
def mutateWalkP (idx : Nat) (freshFor : Package → Int) (ind : List Int) :
    List Package → Nat → Option (List Int) × Nat
  | [], g => (none, g)
  | p :: ps, g =>
    if g = idx then (some (ind.set idx (freshFor p)), g)
    else mutateWalkP idx freshFor ind ps (g + 1)

/-- The container walk of `Optimizer1D._mutate_individual`: when the usage
gene is hit the loop `break`s after flipping only an optional container's
gene. -/
def mutateWalkC (packages : List Package) (idx : Nat) (freshFor : Package → Int)
    (ind : List Int) : List Container → Nat → List Int
  | [], _ => ind
  | c :: cs, g =>
    if g = idx then (if c.is_optional then ind.set idx (1 - ind.getD idx 0) else ind)
    else
      match mutateWalkP idx freshFor ind packages (g + 1) with
      | (some res, _) => res
      | (none, g2) => mutateWalkC packages idx freshFor ind cs g2

/-- `Optimizer1D._mutate_individual`; see `Opt2.mutate_individual`. -/
def mutate_individual (prob : Problem) (r : ℚ) (idx : Nat) (freshFor : Package → Int)
    (ind : List Int) : List Int :=
  if r < 1/10 then mutateWalkC prob.packages idx freshFor ind prob.containers 0 else ind

/-- One individual's mutation step inside `Optimizer1D.optimize`
(lines 80-83). -/
def mutationStep (prob : Problem) (pmut rOuter r : ℚ) (idx : Nat)
    (freshFor : Package → Int) (ind : List Int) : List Int :=
  if rOuter < pmut then mutate_individual prob r idx freshFor ind else ind

/-- Layout classifier for a container suffix; see `Opt2.geneKindFrom`. -/
def geneKindFrom (packages : List Package) (cs : List Container) (off : Nat) :
    Option (Container ⊕ Package) :=
  let block := packages.length + 1
  if off / block < cs.length then
    if off % block = 0 then (cs.get? (off / block)).map Sum.inl
    else (packages.get? (off % block - 1)).map Sum.inr
  else none

/-- Flat gene-layout classifier; see `Opt2.geneKind`. -/
def geneKind (prob : Problem) (idx : Nat) : Option (Container ⊕ Package) :=
  geneKindFrom prob.packages prob.containers idx

/-- What one mutation does to the classified gene; see `Opt2.applyKind`. -/
def applyKind (idx : Nat) (freshFor : Package → Int) (ind : List Int) :
    Option (Container ⊕ Package) → List Int
  | some (Sum.inl c) => if c.is_optional then ind.set idx (1 - ind.getD idx 0) else ind
  | some (Sum.inr p) => ind.set idx (freshFor p)
  | none => ind

end Opt1

namespace Opt3

/-- A 3D package, from `models/data_structures.py` (`Package`). -/
structure Package where
  name : String
  width : Nat
  height : Nat
  depth : Nat
  min_quantity : Nat
  max_quantity : Nat
deriving DecidableEq

/-- A 3D container, from `models/data_structures.py` (`Container`). -/
structure Container where
  id : String
  width : Nat
  height : Nat
  depth : Nat
  is_optional : Bool
deriving DecidableEq

/-- The parts of `PackingProblem` used by `Optimizer3D`. -/
structure Problem where
  packages : List Package
  containers : List Container
  allowed_rotations : Option (List (List Bool))
deriving DecidableEq

/-- A placed package with 3D position and dimensions. -/
structure PlacedPackage where
  package_name : String
  x : Nat
  y : Nat
  z : Nat
  w : Nat
  h : Nat
  d : Nat
  rotation : Option String
deriving DecidableEq

/-- Rotation generator for a 3D package, from
`BaseOptimizer._generate_rotations` (the `len(dims) == 3` branch): each of
the three axis-swap permissions contributes an orientation only when the
relevant axis pair differs in length. -/
def generate_rotations (prob : Problem) (p : Package) (i : Nat) :
    List (String × Nat × Nat × Nat) :=
  let base := [(p.name, p.width, p.height, p.depth)]
  match prob.allowed_rotations with
  | none => base
  | some ar =>
    if ar = [] then base
    else if h : i < ar.length then
      let perms := ar.get ⟨i, h⟩
      if 3 ≤ perms.length then
        base ++
          (if perms.getD 0 false && p.width ≠ p.height then
            [(p.name ++ "_rxy", p.height, p.width, p.depth)] else []) ++
          (if perms.getD 1 false && p.width ≠ p.depth then
            [(p.name ++ "_rxz", p.depth, p.height, p.width)] else []) ++
          (if perms.getD 2 false && p.height ≠ p.depth then
            [(p.name ++ "_ryz", p.width, p.depth, p.height)] else [])
      else base
    else base

/-- Overlap-freedom check, from `Optimizer3D._can_place_3d`. -/
def can_place_3d (placed : List PlacedPackage) (x y z w h d : Nat) : Bool :=
  placed.all fun p =>
    decide (x + w ≤ p.x) || decide (p.x + p.w ≤ x) ||
    decide (y + h ≤ p.y) || decide (p.y + p.h ≤ y) ||
    decide (z + d ≤ p.z) || decide (p.z + p.d ≤ z)

/-- Candidate positions in bottom-left-back order:
`for z in range(0, D - d + 1): for y in ...: for x in ...`. -/
def candPositions (W H D w h d : Nat) : List (Nat × Nat × Nat) :=
  (List.range (D + 1 - d)).flatMap fun z =>
    (List.range (H + 1 - h)).flatMap fun y =>
      (List.range (W + 1 - w)).map fun x => (x, y, z)

/-- First admissible position for a `w × h × d` box. -/
def findPosition (placed : List PlacedPackage) (W H D w h d : Nat) :
    Option (Nat × Nat × Nat) :=
  (candPositions W H D w h d).find? fun pos =>
    can_place_3d placed pos.1 pos.2.1 pos.2.2 w h d

/-- Attempt to place one unit, trying orientations in generator order. -/
def tryRotations (placed : List PlacedPackage) (W H D : Nat) :
    List (String × Nat × Nat × Nat) → Option PlacedPackage
  | [] => none
  | (name, w, h, d) :: rest =>
    match findPosition placed W H D w h d with
    | some pos =>
      some ⟨name, pos.1, pos.2.1, pos.2.2, w, h, d,
        if Opt2.hasRotMark name then some name else none⟩
    | none => tryRotations placed W H D rest

/-- Saturating decrement of the `unplaced_packages` dict. -/
def decUnplaced (m : String → Nat) (n : String) : String → Nat :=
  fun k => if k = n then m k - 1 else m k

/-- Placement state threaded through one container. -/
structure PlaceState where
  placed : List PlacedPackage
  unplaced : String → Nat

/-- The per-unit loop of `Optimizer3D._decode_solution` with ghost
success/attempt counts. -/
def placeUnits (rots : List (String × Nat × Nat × Nat)) (baseName : String) (W H D : Nat) :
    Nat → PlaceState → PlaceState × Nat × Nat
  | 0, st => (st, 0, 0)
  | q + 1, st =>
    match tryRotations st.placed W H D rots with
    | none => (st, 0, 1)
    | some pp =>
      let st2 : PlaceState := ⟨st.placed ++ [pp], decUnplaced st.unplaced baseName⟩
      let r := placeUnits rots baseName W H D q st2
      (r.1, r.2.1 + 1, r.2.2 + 1)

/-- The per-package loop of `Optimizer3D._decode_solution`. -/
def placePackages (prob : Problem) (W H D : Nat) :
    List (Package × Int) → PlaceState → PlaceState × List PkgStat
  | [], st => (st, [])
  | (p, q) :: rest, st =>
    let rots := generate_rotations prob p (prob.packages.indexOf p)
    let r := placeUnits rots p.name W H D q.toNat st
    let r2 := placePackages prob W H D rest r.1
    (r2.1, ⟨p.name, q.toNat, r.2.1, r.2.2⟩ :: r2.2)

/-- `ContainerSolution` (3D form). -/
structure ContainerSolution where
  container : Container
  placed_packages : List PlacedPackage
  utilization_rate : ℚ

/-- `OptimizationResult` restricted to the fields `_decode_solution`
computes (3D form). -/
structure OptimizationResult where
  container_solutions : List ContainerSolution
  total_efficiency : ℚ
  unused_containers : List Container
  unplaced_packages : String → Nat

/-- The container loop of `Optimizer3D._decode_solution`. -/
def decodeContainers (prob : Problem) :
    List Container → List Int → (String → Nat) →
    Option (List ContainerSolution × List Container × (String → Nat) ×
      List (String × List PkgStat))
  | [], _, unplaced => some ([], [], unplaced, [])
  | c :: cs, genes, unplaced =>
    match genes with
    | [] => none
    | g :: genes2 =>
      if g = 0 then
        match decodeContainers prob cs (genes2.drop prob.packages.length) unplaced with
        | none => none
        | some (sols, unused, unp, tr) => some (sols, c :: unused, unp, tr)
      else
        if genes2.length < prob.packages.length then none
        else
          let qs := genes2.take prob.packages.length
          let r := placePackages prob c.width c.height c.depth
            (prob.packages.zip qs) ⟨[], unplaced⟩
          let st := r.1
          let pstats := r.2
          if st.placed = [] then
            match decodeContainers prob cs (genes2.drop prob.packages.length) st.unplaced with
            | none => none
            | some (sols, unused, unp, tr) => some (sols, c :: unused, unp, (c.id, pstats) :: tr)
          else
            if c.width * c.height * c.depth = 0 then none
            else
              let used : Nat := (st.placed.map fun pp => pp.w * pp.h * pp.d).sum
              let sol : ContainerSolution :=
                ⟨c, st.placed, (used : ℚ) / ((c.width * c.height * c.depth : Nat) : ℚ)⟩
              match decodeContainers prob cs (genes2.drop prob.packages.length) st.unplaced with
              | none => none
              | some (sols, unused, unp, tr) =>
                some (sol :: sols, unused, unp, (c.id, pstats) :: tr)

/-- Initial `unplaced_packages` dict of `Optimizer3D._decode_solution`. -/
def initUnplaced (prob : Problem) : String → Nat :=
  prob.packages.foldl (fun m p => fun k => if k = p.name then p.max_quantity else m k)
    (fun _ => 0)

/-- `Optimizer3D._decode_solution`, with the ghost per-package trace. -/
def decodeWithStats (prob : Problem) (genome : List Int) :
    Option (OptimizationResult × List (String × List PkgStat)) :=
  match decodeContainers prob prob.containers genome (initUnplaced prob) with
  | none => none
  | some (sols, unused, unp, tr) =>
    let eff : ℚ :=
      if sols.isEmpty then 0 else (sols.map fun s => s.utilization_rate).sum / (sols.length : ℚ)
    some (⟨sols, eff, unused, unp⟩, tr)

/-- `Optimizer3D._decode_solution` (the value the Python method returns). -/
def decode_solution (prob : Problem) (genome : List Int) : Option OptimizationResult :=
  (decodeWithStats prob genome).map Prod.fst

end Opt3

namespace Val

/-- A package as validated, from `models/data_structures.py` (`Package`),
with dimensionality kept generic (`dimensions : List Int`). -/
structure VPackage where
  name : String
  dimensions : List Int
  min_quantity : Int
  max_quantity : Int
  weight : Option ℚ
  value : Option ℚ
deriving DecidableEq

/-- A container as validated, from `models/data_structures.py`
(`Container`). -/
structure VContainer where
  id : String
  dimensions : List Int
  is_optional : Bool
  max_weight : Option ℚ
  cost : Option ℚ
deriving DecidableEq

/-- A `PackingProblem` as validated. -/
structure VProblem where
  packages : List VPackage
  containers : List VContainer
  allowed_rotations : Option (List (List Bool))
deriving DecidableEq

/-- Python `str.strip()` whitespace characters. -/
def isPyWhitespace (c : Char) : Bool :=
  c = ' ' || c = '\t' || c = '\n' || c = '\x0d' || c = '\x0b' || c = '\x0c'

/-- Test for `not s or not s.strip()`: `s` is empty or whitespace-only. -/
def isBlank (s : String) : Bool := s.toList.all isPyWhitespace

/-- Test for a dimension count outside `{1, 2, 3}`. -/
def badDimCount (dims : List Int) : Bool :=
  !(dims.length = 1 || dims.length = 2 || dims.length = 3)

/-- Test for `any(d <= 0 for d in dims)`. -/
def anyNonPositive (dims : List Int) : Bool := dims.any fun d => decide (d ≤ 0)

/-- Test for `o is not None and o < 0`. -/
def optNeg (o : Option ℚ) : Bool := o.elim false fun w => decide (w < 0)

/-- Test for `o is not None and o <= 0`. -/
def optNonPos (o : Option ℚ) : Bool := o.elim false fun w => decide (w ≤ 0)

/-- Whether `Package.__post_init__` raises (`models/data_structures.py`,
the four `ValueError` checks). -/
def packageCtorFails (p : VPackage) : Bool :=
  decide (p.min_quantity < 0) || decide (p.max_quantity < p.min_quantity) ||
  badDimCount p.dimensions || anyNonPositive p.dimensions

/-- Whether `Container.__post_init__` raises. -/
def containerCtorFails (c : VContainer) : Bool :=
  badDimCount c.dimensions || anyNonPositive c.dimensions

/-- The set of dimension counts occurring among the packages
(`set(len(p.dimensions) for p in packages)`). -/
def packageDimSet (pr : VProblem) : Finset Nat :=
  (pr.packages.map fun p => p.dimensions.length).toFinset

/-- The set of dimension counts occurring among the containers. -/
def containerDimSet (pr : VProblem) : Finset Nat :=
  (pr.containers.map fun c => c.dimensions.length).toFinset

/-- Whether constructing the `PackingProblem` value raises: some package or
container constructor raises, or `PackingProblem.__post_init__` raises
(empty lists, mixed dimension counts within a group, or a package/container
dimension-count mismatch). -/
def constructFails (pr : VProblem) : Bool :=
  pr.packages.any packageCtorFails || pr.containers.any containerCtorFails ||
  pr.packages.isEmpty || pr.containers.isEmpty ||
  decide (1 < (packageDimSet pr).card) || decide (1 < (containerDimSet pr).card) ||
  decide (packageDimSet pr ≠ containerDimSet pr)

/-- `validate_package` of `models/validation.py`. -/
def validate_package (p : VPackage) : List String :=
  (if isBlank p.name then ["Package name cannot be empty"] else []) ++
  (if badDimCount p.dimensions then ["Package dimensions must be 1D, 2D, or 3D"] else []) ++
  (if anyNonPositive p.dimensions then ["All package dimensions must be positive"] else []) ++
  (if decide (p.min_quantity < 0) then ["Minimum quantity cannot be negative"] else []) ++
  (if decide (p.max_quantity < p.min_quantity) then
    ["Maximum quantity cannot be less than minimum quantity"] else []) ++
  (if optNeg p.weight then ["Package weight cannot be negative"] else []) ++
  (if optNeg p.value then ["Package value cannot be negative"] else [])

/-- `validate_container` of `models/validation.py`. -/
def validate_container (c : VContainer) : List String :=
  (if isBlank c.id then ["Container ID cannot be empty"] else []) ++
  (if badDimCount c.dimensions then ["Container dimensions must be 1D, 2D, or 3D"] else []) ++
  (if anyNonPositive c.dimensions then ["All container dimensions must be positive"] else []) ++
  (if optNonPos c.max_weight then ["Maximum weight must be positive"] else []) ++
  (if optNeg c.cost then ["Container cost cannot be negative"] else [])

/-- The `for i, x in enumerate(xs)` error-prefixing loops of
`validate_packing_problem` (`f"Package {i+1}: {error}"`). -/
def prefixedErrors (tag : String) (f : α → List String) : List α → Nat → List String
  | [], _ => []
  | a :: rest, i =>
    (f a).map (fun e => tag ++ toString (i + 1) ++ ": " ++ e) ++ prefixedErrors tag f rest (i + 1)

/-- `validate_packing_problem` of `models/validation.py`. -/
def validate_packing_problem (pr : VProblem) : List String :=
  (if pr.packages.isEmpty then ["At least one package must be provided"]
   else prefixedErrors "Package " validate_package pr.packages 0) ++
  (if pr.containers.isEmpty then ["At least one container must be provided"]
   else prefixedErrors "Container " validate_container pr.containers 0) ++
  (if !pr.packages.isEmpty && !pr.containers.isEmpty then
    (if decide (1 < (packageDimSet pr).card) then
      ["All packages must have the same number of dimensions"] else []) ++
    (if decide (1 < (containerDimSet pr).card) then
      ["All containers must have the same number of dimensions"] else []) ++
    (if (packageDimSet pr).Nonempty && (containerDimSet pr).Nonempty &&
        decide (packageDimSet pr ≠ containerDimSet pr) then
      ["Packages and containers must have the same number of dimensions"] else [])
   else []) ++
  (match pr.allowed_rotations with
   | some ar =>
     if ar.length ≠ pr.packages.length then
       ["Rotation permissions must be provided for all packages"] else []
   | none => [])

/-- Outcome of `OptimizationService.optimize_packing`, reduced to what the
validation claim observes: either the problem is rejected before any
optimizer is constructed, or an engine for the problem's dimensionality
runs. -/
inductive ServiceOutcome where
  | rejected (errors : List String)
  | ran (dimensions : Nat)
deriving DecidableEq

/-- `PackingProblem.dimensions_count`
(`len(packages[0].dimensions) if packages else 0`). -/
def dimensions_count (pr : VProblem) : Nat :=
  match pr.packages with
  | [] => 0
  | p :: _ => p.dimensions.length

/-- `OptimizationService.optimize_packing`, problem-validation part: a
nonempty error list from `validate_packing_problem` raises `ValueError`
before the optimizer class is instantiated. -/
def optimize_packing (pr : VProblem) : ServiceOutcome :=
  if validate_packing_problem pr = [] then ServiceOutcome.ran (dimensions_count pr)
  else ServiceOutcome.rejected (validate_packing_problem pr)

/-- All conditions under which `validate_package` reports at least one
error, as one boolean. -/
def packageBad (p : VPackage) : Bool :=
  isBlank p.name || badDimCount p.dimensions || anyNonPositive p.dimensions ||
  decide (p.min_quantity < 0) || decide (p.max_quantity < p.min_quantity) ||
  optNeg p.weight || optNeg p.value

/-- All conditions under which `validate_container` reports at least one
error, as one boolean. -/
def containerBad (c : VContainer) : Bool :=
  isBlank c.id || badDimCount c.dimensions || anyNonPositive c.dimensions ||
  optNonPos c.max_weight || optNeg c.cost

/-- The rotation-permission length mismatch condition. -/
def rotationBad (pr : VProblem) : Bool :=
  match pr.allowed_rotations with
  | some ar => decide (ar.length ≠ pr.packages.length)
  | none => false

/-- All dimension counts occurring in the problem, packages first. -/
def unionDims (pr : VProblem) : List Nat :=
  (pr.packages.map fun p => p.dimensions.length) ++
    (pr.containers.map fun c => c.dimensions.length)

/-- The failure conditions listed by the claim (spec §4.1), written from the
spec's words for comparison with the code's behavior: empty lists, bad
dimension count, non-positive dimension, negative `min_quantity`,
`max_quantity < min_quantity`, mixed dimensionalities between any two
packages/containers, or a rotation-permission length mismatch. -/
def claimedFailCondition (pr : VProblem) : Bool :=
  pr.packages.isEmpty || pr.containers.isEmpty ||
  pr.packages.any (fun p => badDimCount p.dimensions) ||
  pr.containers.any (fun c => badDimCount c.dimensions) ||
  pr.packages.any (fun p => anyNonPositive p.dimensions) ||
  pr.containers.any (fun c => anyNonPositive c.dimensions) ||
  pr.packages.any (fun p => decide (p.min_quantity < 0)) ||
  pr.packages.any (fun p => decide (p.max_quantity < p.min_quantity)) ||
  decide (1 < (unionDims pr).toFinset.card) ||
  rotationBad pr

/-- The claim's condition list extended by the remaining conditions the
validators actually check: blank names/ids, negative weight or value,
non-positive `max_weight`, negative cost. -/
def amendedFailCondition (pr : VProblem) : Bool :=
  claimedFailCondition pr ||
  pr.packages.any (fun p => isBlank p.name) ||
  pr.containers.any (fun c => isBlank c.id) ||
  pr.packages.any (fun p => optNeg p.weight) ||
  pr.packages.any (fun p => optNeg p.value) ||
  pr.containers.any (fun c => optNonPos c.max_weight) ||
  pr.containers.any (fun c => optNeg c.cost)

end Val

namespace PyMod

/-- Module-level names bound in `optimizer_1d.py` by its import statements
(`import random`, `import numpy as np`, `from typing import ...`,
`from deap import ...`, `from .base_optimizer import BaseOptimizer`,
`from models... import ...`) and its class definition.  `time` is absent:
unlike `base_optimizer.py`, `optimizer_2d.py` and `optimizer_3d.py`, the 1D
module never imports it. -/
def optimizer1dBindings : List String :=
  ["random", "np", "List", "Tuple", "Any", "base", "creator", "tools", "algorithms",
   "BaseOptimizer", "Package", "Container", "PlacedPackage", "OptimizationResult",
   "ContainerSolution", "Optimizer1D"]

/-- Python builtins referenced by `optimizer_1d.py`; always resolvable. -/
def pythonBuiltins : List String :=
  ["list", "map", "zip", "range", "max", "sum", "len", "hasattr", "delattr"]

/-- Whether a global name lookup in `optimizer_1d.py` succeeds (module
binding or builtin); a failing lookup raises `NameError` at the statement
performing it. -/
def nameBound (n : String) : Bool :=
  n ∈ optimizer1dBindings || n ∈ pythonBuiltins

/-- The successive top-level statements of `Optimizer1D.optimize`
(source lines 53-123) with the global names each one reads; local variables
and `self.`-attributes resolve without a global lookup.  Statement 0 is
`self.logger.info("Starting 1D optimization")`; statement 1 is
`start_time = time.time()`; statement 5 is the generation loop; statement
13 is `return result`. -/
def optimizeStmtGlobals : List (List String) :=
  [[],
   ["time"],
   [],
   ["list", "map"],
   ["zip"],
   ["range", "time", "random", "np", "list", "map", "zip", "max", "sum", "len"],
   ["tools"],
   [],
   ["time"],
   [],
   [],
   [],
   [],
   []]

/-- Index of the first statement of `optimize` whose execution raises
`NameError` (reads a name that is neither a module binding nor a builtin). -/
def firstNameErrorStmt : Option Nat :=
  optimizeStmtGlobals.findIdx? fun gs => gs.any fun n => !nameBound n

/-- Global names read by `Optimizer1D._decode_solution`. -/
def decodeSolutionGlobals : List String :=
  ["zip", "range", "len", "sum", "PlacedPackage", "ContainerSolution", "OptimizationResult"]

/-- Global names read by `Optimizer1D._evaluate_fitness`. -/
def evaluateFitnessGlobals : List String := ["len"]

end PyMod

namespace Opt2

/-- In-bounds: `position[i] + dimensions[i] <= container.dimensions[i]` on
both axes. -/
def inBounds (W H : Nat) (pp : PlacedPackage) : Prop :=
  pp.x + pp.w ≤ W ∧ pp.y + pp.h ≤ H

/-- Axis-aligned non-overlap: the two boxes' intervals are disjoint on at
least one axis. -/
def disjointBoxes (a b : PlacedPackage) : Prop :=
  a.x + a.w ≤ b.x ∨ b.x + b.w ≤ a.x ∨ a.y + a.h ≤ b.y ∨ b.y + b.h ≤ a.y

/-- Placement-list invariant: all boxes in bounds and pairwise
non-overlapping. -/
def Inv (W H : Nat) (l : List PlacedPackage) : Prop :=
  (∀ pp ∈ l, inBounds W H pp) ∧ l.Pairwise disjointBoxes

/-- The set of unit grid cells covered by a placed box. -/
def cells (pp : PlacedPackage) : Finset (Nat × Nat) :=
  Finset.Ico pp.x (pp.x + pp.w) ×ˢ Finset.Ico pp.y (pp.y + pp.h)

/-- Union of the cells of a list of boxes. -/
def cellsUnion (l : List PlacedPackage) : Finset (Nat × Nat) :=
  l.foldr (fun pp acc => cells pp ∪ acc) ∅

end Opt2

namespace Opt3

/-- In-bounds on all three axes. -/
def inBounds (W H D : Nat) (pp : PlacedPackage) : Prop :=
  pp.x + pp.w ≤ W ∧ pp.y + pp.h ≤ H ∧ pp.z + pp.d ≤ D

/-- Axis-aligned non-overlap: intervals disjoint on at least one axis. -/
def disjointBoxes (a b : PlacedPackage) : Prop :=
  a.x + a.w ≤ b.x ∨ b.x + b.w ≤ a.x ∨ a.y + a.h ≤ b.y ∨ b.y + b.h ≤ a.y ∨
  a.z + a.d ≤ b.z ∨ b.z + b.d ≤ a.z

/-- Placement-list invariant. -/
def Inv (W H D : Nat) (l : List PlacedPackage) : Prop :=
  (∀ pp ∈ l, inBounds W H D pp) ∧ l.Pairwise disjointBoxes

/-- The set of unit grid cells covered by a placed box. -/
def cells (pp : PlacedPackage) : Finset (Nat × Nat × Nat) :=
  Finset.Ico pp.x (pp.x + pp.w) ×ˢ
    (Finset.Ico pp.y (pp.y + pp.h) ×ˢ Finset.Ico pp.z (pp.z + pp.d))

/-- Union of the cells of a list of boxes. -/
def cellsUnion (l : List PlacedPackage) : Finset (Nat × Nat × Nat) :=
  l.foldr (fun pp acc => cells pp ∪ acc) ∅

end Opt3

namespace Opt1

/-- In-bounds on the single axis. -/
def inBounds (L : Nat) (pp : PlacedPackage) : Prop := pp.position + pp.length ≤ L

/-- Non-overlap of 1D intervals. -/
def disjointBoxes (a b : PlacedPackage) : Prop :=
  a.position + a.length ≤ b.position ∨ b.position + b.length ≤ a.position

/-- State invariant of the 1D fill loop: every placed interval ends at or
before the cursor, the cursor never exceeds the container length, and the
cursor equals the total placed length. -/
def Inv (L : Nat) (st : PlaceState) : Prop :=
  (∀ pp ∈ st.placed, pp.position + pp.length ≤ st.cur) ∧ st.cur ≤ L ∧
  (st.placed.map fun pp => pp.length).sum = st.cur ∧
  st.placed.Pairwise disjointBoxes

end Opt1

namespace Scen

/-- Scenario A problem (spec §8): one 1D package `A` of length 4 with
quantity range [1,3] and one mandatory container of length 10. -/
def probA : Opt1.Problem := ⟨[⟨"A", 4, 1, 3⟩], [⟨"C", 10, false⟩], none⟩

/-- Scenario B problem (spec §8): one 2D package of size 5×5 (quantity range
[1,5]) and one mandatory 10×10 container. -/
def probB : Opt2.Problem := ⟨[⟨"P", 5, 5, 1, 5⟩], [⟨"C", 10, 10, false⟩], none⟩

/-- A small 2D problem with one mandatory container, used to exhibit the
mutation behavior: the claim's mutation description fails on it. -/
def probM : Opt2.Problem := ⟨[⟨"P", 5, 5, 1, 5⟩], [⟨"C", 10, 10, true⟩], none⟩

/-- A 3D one-package problem used for witnesses. -/
def prob3 : Opt3.Problem := ⟨[⟨"B", 2, 3, 4, 0, 9⟩], [⟨"C", 4, 4, 4, false⟩], some [[true, true, true]]⟩

/-- A problem whose only defect is a whitespace package name: none of the
claim's listed failure conditions holds, yet validation reports an error. -/
def prBlank : Val.VProblem :=
  ⟨[⟨" ", [5], 0, 1, none, none⟩], [⟨"c", [10], false, none, none⟩], none⟩

/-- Scenario D problem (spec §8): 2D packages with 3D containers. -/
def prD : Val.VProblem :=
  ⟨[⟨"p", [2, 3], 0, 1, none, none⟩], [⟨"c", [4, 5, 6], false, none, none⟩], none⟩

/-- The decoded result of Scenario B at genome `[1, 5]` (used for concrete
witnesses). -/
def rB : Opt2.OptimizationResult :=
  (Opt2.decode_solution probB [1, 5]).getD ⟨[], 0, [], fun _ => 0⟩

/-- Its single container solution. -/
def solB : Opt2.ContainerSolution :=
  rB.container_solutions.getD 0 ⟨⟨"", 0, 0, false⟩, [], 0⟩

/-- Its first placed package. -/
def ppB : Opt2.PlacedPackage := solB.placed_packages.getD 0 ⟨"", 0, 0, 0, 0, none⟩

/-- The decoded result of Scenario A at genome `[1, 3]`. -/
def rA : Opt1.OptimizationResult :=
  (Opt1.decode_solution probA [1, 3]).getD ⟨[], 0, [], fun _ => 0⟩

/-- Its single container solution. -/
def solA : Opt1.ContainerSolution :=
  rA.container_solutions.getD 0 ⟨⟨"", 0, false⟩, [], 0⟩

/-- Its first placed package. -/
def ppA : Opt1.PlacedPackage := solA.placed_packages.getD 0 ⟨"", 0, 0, none⟩

/-- The decoded result of the 3D witness problem at genome `[1, 9]`. -/
def r3 : Opt3.OptimizationResult :=
  (Opt3.decode_solution prob3 [1, 9]).getD ⟨[], 0, [], fun _ => 0⟩

/-- Its single container solution. -/
def sol3 : Opt3.ContainerSolution :=
  r3.container_solutions.getD 0 ⟨⟨"", 0, 0, 0, false⟩, [], 0⟩

/-- Its first placed package. -/
def pp3 : Opt3.PlacedPackage := sol3.placed_packages.getD 0 ⟨"", 0, 0, 0, 0, 0, 0, none⟩

/-- The ghost trace of Scenario B at genome `[1, 5]`. -/
def trB : List (String × List PkgStat) :=
  ((Opt2.decodeWithStats probB [1, 5]).getD (⟨[], 0, [], fun _ => 0⟩, [])).2

/-- The ghost trace of Scenario A at genome `[1, 3]`. -/
def trA : List (String × List PkgStat) :=
  ((Opt1.decodeWithStats probA [1, 3]).getD (⟨[], 0, [], fun _ => 0⟩, [])).2

/-- Scenario B trace: the single container's entry. -/
def ceB : String × List PkgStat := trB.getD 0 ("", [])

/-- Scenario B trace: the single package's statistics. -/
def eB : PkgStat := ceB.2.getD 0 ⟨"", 0, 0, 0⟩

/-- Scenario A trace: the single container's entry. -/
def ceA : String × List PkgStat := trA.getD 0 ("", [])

/-- Scenario A trace: the single package's statistics. -/
def eA : PkgStat := ceA.2.getD 0 ⟨"", 0, 0, 0⟩

end Scen

theorem succSum_cons (k : String) (e : PkgStat) (es : List PkgStat) :
    succSum k (e :: es) = (if e.name = k then e.successes else 0) + succSum k es := by
  by_cases h : e.name = k
  · simp [succSum, List.filter_cons, h]
  · simp [succSum, List.filter_cons, h]

theorem trSucc_cons (k : String) (ce : String × List PkgStat)
    (tr : List (String × List PkgStat)) :
    trSucc k (ce :: tr) = succSum k ce.2 + trSucc k tr := by
  simp [trSucc]

namespace Opt2

theorem disjointBoxes_symm_d2 {a b : PlacedPackage} (h : disjointBoxes a b) :
    disjointBoxes b a := by
  unfold disjointBoxes at h ⊢
  tauto

theorem mem_candPositions_d2 {W H w h x y : Nat}
    (hm : (x, y) ∈ candPositions W H w h) : x + w ≤ W ∧ y + h ≤ H := by
  unfold candPositions at hm
  simp only [List.mem_flatMap, List.mem_map, List.mem_range, Prod.mk.injEq] at hm
  obtain ⟨y2, hy2, x2, hx2, hxx, hyy⟩ := hm
  omega

theorem can_place_spec_d2 {placed : List PlacedPackage} {x y w h : Nat}
    (hc : can_place_2d placed x y w h = true) :
    ∀ p ∈ placed, x + w ≤ p.x ∨ p.x + p.w ≤ x ∨ y + h ≤ p.y ∨ p.y + p.h ≤ y := by
  unfold can_place_2d at hc
  rw [List.all_eq_true] at hc
  intro p hp
  have := hc p hp
  simp only [Bool.or_eq_true, decide_eq_true_eq] at this
  tauto

theorem tryRotations_sound_d2 {placed : List PlacedPackage} {W H : Nat} :
    ∀ {rots : List (String × Nat × Nat)} {pp : PlacedPackage},
    tryRotations placed W H rots = some pp →
    inBounds W H pp ∧ ∀ p ∈ placed, disjointBoxes pp p := by
  intro rots
  induction rots with
  | nil => intro pp hpp; simp [tryRotations] at hpp
  | cons r rest ih =>
    intro pp hpp
    obtain ⟨name, w, h⟩ := r
    unfold tryRotations at hpp
    cases hf : findPosition placed W H w h with
    | none => rw [hf] at hpp; exact ih hpp
    | some pos =>
      rw [hf] at hpp
      cases hpp
      unfold findPosition at hf
      have hmem := List.mem_of_find?_eq_some hf
      have hpred := List.find?_some hf
      obtain ⟨px, py⟩ := pos
      have hb := mem_candPositions_d2 hmem
      refine ⟨⟨hb.1, hb.2⟩, ?_⟩
      intro p hp
      exact can_place_spec_d2 hpred p hp

theorem Inv_append_d2 {W H : Nat} {l : List PlacedPackage} {pp : PlacedPackage}
    (hI : Inv W H l) (hb : inBounds W H pp)
    (hd : ∀ p ∈ l, disjointBoxes pp p) : Inv W H (l ++ [pp]) := by
  constructor
  · intro q hq
    rcases List.mem_append.mp hq with hql | hqr
    · exact hI.1 q hql
    · rw [List.mem_singleton] at hqr; subst hqr; exact hb
  · rw [List.pairwise_append]
    refine ⟨hI.2, List.pairwise_singleton _ _, ?_⟩
    intro a ha b hbm
    rw [List.mem_singleton] at hbm; subst hbm
    exact disjointBoxes_symm_d2 (hd a ha)

theorem placeUnits_inv_d2 {rots : List (String × Nat × Nat)} {baseName : String} {W H : Nat} :
    ∀ q st, Inv W H st.placed →
    Inv W H (placeUnits rots baseName W H q st).1.placed := by
  intro q
  induction q with
  | zero => intro st h; exact h
  | succ n ih =>
    intro st h
    unfold placeUnits
    cases htry : tryRotations st.placed W H rots with
    | none => exact h
    | some pp =>
      have hs := tryRotations_sound_d2 htry
      exact ih ⟨st.placed ++ [pp], decUnplaced st.unplaced baseName⟩
        (Inv_append_d2 h hs.1 hs.2)

/-- Success/attempt and bookkeeping facts about the per-unit loop. -/
theorem placeUnits_spec_d2 {rots : List (String × Nat × Nat)} {baseName : String} {W H : Nat} :
    ∀ q st,
    (placeUnits rots baseName W H q st).2.2 ≤ q ∧
    (((placeUnits rots baseName W H q st).2.2 = q ∧
      (placeUnits rots baseName W H q st).2.1 = q) ∨
      (placeUnits rots baseName W H q st).2.1 + 1 = (placeUnits rots baseName W H q st).2.2) ∧
    (placeUnits rots baseName W H q st).1.placed.length =
      st.placed.length + (placeUnits rots baseName W H q st).2.1 ∧
    (∀ k, (placeUnits rots baseName W H q st).1.unplaced k =
      st.unplaced k - (if k = baseName then (placeUnits rots baseName W H q st).2.1 else 0)) := by
  intro q
  induction q with
  | zero =>
    intro st
    refine ⟨Nat.le_refl 0, Or.inl ⟨rfl, rfl⟩, by simp [placeUnits], ?_⟩
    intro k; simp [placeUnits]
  | succ n ih =>
    intro st
    cases htry : tryRotations st.placed W H rots with
    | none =>
      simp only [placeUnits, htry]
      exact ⟨by omega, by simp, by simp, fun k => by simp⟩
    | some pp =>
      simp only [placeUnits, htry]
      have h2 := ih ⟨st.placed ++ [pp], decUnplaced st.unplaced baseName⟩
      obtain ⟨ha, hd, hl, hu⟩ := h2
      refine ⟨by omega, ?_, ?_, ?_⟩
      · rcases hd with ⟨h1, h2⟩ | h1
        · exact Or.inl ⟨by omega, by omega⟩
        · exact Or.inr (by omega)
      · simp only [List.length_append, List.length_singleton] at hl
        omega
      · intro k
        have := hu k
        simp only [decUnplaced] at this
        by_cases hk : k = baseName
        · simp only [hk, if_true] at this ⊢
          omega
        · simp only [hk, if_false] at this ⊢
          simpa using this

theorem placePackages_inv_d2 {prob : Problem} {W H : Nat} :
    ∀ pairs st, Inv W H st.placed →
    Inv W H (placePackages prob W H pairs st).1.placed := by
  intro pairs
  induction pairs with
  | nil => intro st h; exact h
  | cons pr rest ih =>
    intro st h
    obtain ⟨p, q⟩ := pr
    simp only [placePackages]
    exact ih _ (placeUnits_inv_d2 _ _ h)

theorem placePackages_spec_d2 {prob : Problem} {W H : Nat} :
    ∀ pairs st,
    (∀ k, (placePackages prob W H pairs st).1.unplaced k =
       st.unplaced k - succSum k (placePackages prob W H pairs st).2) ∧
    ((placePackages prob W H pairs st).2.map fun e => e.name) =
      (pairs.map fun pr => pr.1.name) ∧
    (∀ e ∈ (placePackages prob W H pairs st).2, statOk e) ∧
    (placePackages prob W H pairs st).1.placed.length =
      st.placed.length + (((placePackages prob W H pairs st).2.map fun e => e.successes).sum) := by
  intro pairs
  induction pairs with
  | nil =>
    intro st
    refine ⟨fun k => by simp [placePackages, succSum], by simp [placePackages], ?_, ?_⟩
    · intro e he; simp [placePackages] at he
    · simp [placePackages]
  | cons pr rest ih =>
    intro st
    obtain ⟨p, q⟩ := pr
    simp only [placePackages]
    have hu := @placeUnits_spec_d2 (generate_rotations prob p (prob.packages.indexOf p))
      p.name W H q.toNat st
    have hr := ih (placeUnits (generate_rotations prob p (prob.packages.indexOf p))
      p.name W H q.toNat st).1
    obtain ⟨hu_a, hu_d, hu_l, hu_u⟩ := hu
    obtain ⟨hr_u, hr_n, hr_ok, hr_l⟩ := hr
    refine ⟨?_, ?_, ?_, ?_⟩
    · intro k
      rw [hr_u k, hu_u k, succSum_cons]
      by_cases hk : k = p.name
      · simp only [hk, if_pos rfl, if_pos (Eq.refl p.name)]
        omega
      · have hk2 : ¬ (p.name = k) := fun he => hk he.symm
        simp only [if_neg hk, if_neg hk2]
        omega
    · simpa using hr_n
    · intro e he
      rcases List.mem_cons.mp he with he1 | he2
      · subst he1
        exact ⟨hu_a, hu_d⟩
      · exact hr_ok e he2
    · simp only [List.map_cons, List.sum_cons]
      omega

theorem map_name_zip_d2 {ps : List Package} {qs : List Int} (h : ps.length ≤ qs.length) :
    ((ps.zip qs).map fun pr => pr.1.name) = ps.map fun p => p.name := by
  have h1 : ((ps.zip qs).map Prod.fst).map (fun p => p.name) =
      ps.map fun p => p.name := by
    rw [List.map_fst_zip ps qs h]
  rw [← h1, List.map_map]
  rfl

/-- Everything the claims need about one pass of the container loop:
per-solution geometric invariants and the utilization formula, the
unplaced-count bookkeeping, the per-container trace shape, and the link
between placed counts and recorded successes. -/
theorem decodeContainers_spec_d2 {prob : Problem} :
    ∀ cs genes unp out, decodeContainers prob cs genes unp = some out →
    (∀ sol ∈ out.1,
       Inv sol.container.width sol.container.height sol.placed_packages ∧
       sol.placed_packages ≠ [] ∧
       sol.container.width * sol.container.height ≠ 0 ∧
       sol.utilization_rate =
         (((sol.placed_packages.map fun pp => pp.w * pp.h).sum : Nat) : ℚ) /
           ((sol.container.width * sol.container.height : Nat) : ℚ)) ∧
    (∀ k, out.2.2.1 k = unp k - trSucc k out.2.2.2) ∧
    (∀ ce ∈ out.2.2.2,
       ((ce.2.map fun e => e.name) = prob.packages.map fun p => p.name) ∧
       ∀ e ∈ ce.2, statOk e) ∧
    ((out.1.map fun s => s.placed_packages.length).sum =
      (out.2.2.2.map fun ce => (ce.2.map fun e => e.successes).sum).sum) := by
  intro cs
  induction cs with
  | nil =>
    intro genes unp out hdec
    simp only [decodeContainers] at hdec
    cases hdec
    exact ⟨by simp, fun k => by simp [trSucc], by simp, by simp⟩
  | cons c cs ih =>
    intro genes unp out hdec
    cases genes with
    | nil => simp [decodeContainers] at hdec
    | cons g genes2 =>
      by_cases hg : g = 0
      · simp only [decodeContainers, if_pos hg] at hdec
        cases hrec : decodeContainers prob cs (genes2.drop prob.packages.length) unp with
        | none => rw [hrec] at hdec; cases hdec
        | some out2 =>
          obtain ⟨sols, unused, unp2, tr⟩ := out2
          rw [hrec] at hdec
          cases hdec
          have h2 := ih _ _ _ hrec
          exact ⟨h2.1, h2.2.1, h2.2.2.1, h2.2.2.2⟩
      · simp only [decodeContainers, if_neg hg] at hdec
        by_cases hlen : genes2.length < prob.packages.length
        · rw [if_pos hlen] at hdec; cases hdec
        · rw [if_neg hlen] at hdec
          set r := placePackages prob c.width c.height
            (prob.packages.zip (genes2.take prob.packages.length))
            (⟨[], unp⟩ : PlaceState) with hrdef
          have hspec := @placePackages_spec_d2 prob c.width c.height
            (prob.packages.zip (genes2.take prob.packages.length)) (⟨[], unp⟩ : PlaceState)
          rw [← hrdef] at hspec
          obtain ⟨hsp_u, hsp_n, hsp_ok, hsp_l⟩ := hspec
          have hnames : (r.2.map fun e => e.name) = prob.packages.map fun p => p.name := by
            rw [hsp_n]
            apply map_name_zip_d2
            rw [List.length_take]
            omega
          by_cases hpl : r.1.placed = []
          · rw [if_pos hpl] at hdec
            cases hrec : decodeContainers prob cs (genes2.drop prob.packages.length)
              r.1.unplaced with
            | none => rw [hrec] at hdec; cases hdec
            | some out2 =>
              obtain ⟨sols, unused, unp2, tr⟩ := out2
              rw [hrec] at hdec
              cases hdec
              have h2 := ih _ _ _ hrec
              have hsucc0 : ((r.2.map fun e => e.successes).sum) = 0 := by
                have := hsp_l
                rw [hpl] at this
                simpa using this.symm
              refine ⟨h2.1, ?_, ?_, ?_⟩
              · intro k
                have ha := h2.2.1 k
                have hb := hsp_u k
                rw [trSucc_cons]
                simp only at ha hb ⊢
                omega
              · intro ce hce
                rcases List.mem_cons.mp hce with hce1 | hce2
                · subst hce1
                  exact ⟨hnames, hsp_ok⟩
                · exact h2.2.2.1 ce hce2
              · have := h2.2.2.2
                simp only [List.map_cons, List.sum_cons] at this ⊢
                omega
          · rw [if_neg hpl] at hdec
            by_cases harea : c.width * c.height = 0
            · rw [if_pos harea] at hdec; cases hdec
            · rw [if_neg harea] at hdec
              cases hrec : decodeContainers prob cs (genes2.drop prob.packages.length)
                r.1.unplaced with
              | none => rw [hrec] at hdec; cases hdec
              | some out2 =>
                obtain ⟨sols, unused, unp2, tr⟩ := out2
                rw [hrec] at hdec
                cases hdec
                have h2 := ih _ _ _ hrec
                refine ⟨?_, ?_, ?_, ?_⟩
                · intro sol hsol
                  rcases List.mem_cons.mp hsol with hs1 | hs2
                  · subst hs1
                    refine ⟨?_, hpl, harea, rfl⟩
                    have hInv0 : Inv c.width c.height
                        (⟨[], unp⟩ : PlaceState).placed := by
                      exact ⟨by simp, List.Pairwise.nil⟩
                    have := @placePackages_inv_d2 prob c.width c.height
                      (prob.packages.zip (genes2.take prob.packages.length))
                      (⟨[], unp⟩ : PlaceState) hInv0
                    rw [← hrdef] at this
                    exact this
                  · exact h2.1 sol hs2
                · intro k
                  have ha := h2.2.1 k
                  have hb := hsp_u k
                  rw [trSucc_cons]
                  simp only at ha hb ⊢
                  omega
                · intro ce hce
                  rcases List.mem_cons.mp hce with hce1 | hce2
                  · subst hce1
                    exact ⟨hnames, hsp_ok⟩
                  · exact h2.2.2.1 ce hce2
                · have := h2.2.2.2
                  have hl := hsp_l
                  simp only [List.length_nil] at hl
                  simp only [List.map_cons, List.sum_cons] at this ⊢
                  omega

theorem card_cells_d2 (pp : PlacedPackage) : (cells pp).card = pp.w * pp.h := by
  simp [cells, Nat.card_Ico]

theorem cells_disjoint_d2 {a b : PlacedPackage} (h : disjointBoxes a b) :
    Disjoint (cells a) (cells b) := by
  rw [Finset.disjoint_left]
  rintro ⟨u, v⟩ hma hmb
  simp only [cells, Finset.mem_product, Finset.mem_Ico] at hma hmb
  unfold disjointBoxes at h
  omega

theorem cells_subset_d2 {W H : Nat} {pp : PlacedPackage} (h : inBounds W H pp) :
    cells pp ⊆ Finset.Ico 0 W ×ˢ Finset.Ico 0 H := by
  rintro ⟨u, v⟩ hm
  simp only [cells, Finset.mem_product, Finset.mem_Ico] at hm ⊢
  obtain ⟨h1, h2⟩ := h
  omega

theorem disjoint_cellsUnion_d2 {a : PlacedPackage} :
    ∀ {l : List PlacedPackage}, (∀ p ∈ l, Disjoint (cells a) (cells p)) →
    Disjoint (cells a) (cellsUnion l) := by
  intro l
  induction l with
  | nil => intro _; simp [cellsUnion]
  | cons b t ih =>
    intro h
    simp only [cellsUnion, List.foldr_cons] at ih ⊢
    rw [Finset.disjoint_union_right]
    exact ⟨h b (List.mem_cons_self b t), ih fun p hp => h p (List.mem_cons_of_mem b hp)⟩

theorem sum_area_eq_card_d2 {l : List PlacedPackage} (hp : l.Pairwise disjointBoxes) :
    ((l.map fun pp => pp.w * pp.h).sum) = (cellsUnion l).card := by
  induction l with
  | nil => simp [cellsUnion]
  | cons a t ih =>
    rw [List.pairwise_cons] at hp
    have hd : Disjoint (cells a) (cellsUnion t) :=
      disjoint_cellsUnion_d2 fun p hmem => cells_disjoint_d2 (hp.1 p hmem)
    have hcu : cellsUnion (a :: t) = cells a ∪ cellsUnion t := rfl
    simp only [List.map_cons, List.sum_cons, hcu]
    rw [Finset.card_union_of_disjoint hd, card_cells_d2, ih hp.2]

theorem cellsUnion_subset_d2 {W H : Nat} :
    ∀ {l : List PlacedPackage}, (∀ pp ∈ l, inBounds W H pp) →
    cellsUnion l ⊆ Finset.Ico 0 W ×ˢ Finset.Ico 0 H := by
  intro l
  induction l with
  | nil => intro _; simp [cellsUnion]
  | cons a t ih =>
    intro h
    simp only [cellsUnion, List.foldr_cons] at ih ⊢
    exact Finset.union_subset (cells_subset_d2 (h a (List.mem_cons_self a t)))
      (ih fun p hp => h p (List.mem_cons_of_mem a hp))

/-- Pairwise-disjoint in-bounds boxes together cover at most the container
area. -/
theorem sum_area_le_d2 {W H : Nat} {l : List PlacedPackage} (h : Inv W H l) :
    ((l.map fun pp => pp.w * pp.h).sum) ≤ W * H := by
  rw [sum_area_eq_card_d2 h.2]
  have h1 : (cellsUnion l).card ≤ (Finset.Ico 0 W ×ˢ Finset.Ico 0 H).card :=
    Finset.card_le_card (cellsUnion_subset_d2 h.1)
  simpa [Nat.card_Ico] using h1

end Opt2

namespace Opt3

theorem disjointBoxes_symm_d3 {a b : PlacedPackage} (h : disjointBoxes a b) :
    disjointBoxes b a := by
  unfold disjointBoxes at h ⊢
  tauto

theorem mem_candPositions_d3 {W H D w h d x y z : Nat}
    (hm : (x, y, z) ∈ candPositions W H D w h d) :
    x + w ≤ W ∧ y + h ≤ H ∧ z + d ≤ D := by
  unfold candPositions at hm
  simp only [List.mem_flatMap, List.mem_map, List.mem_range, Prod.mk.injEq] at hm
  obtain ⟨z2, hz2, y2, hy2, x2, hx2, hxx, hyy, hzz⟩ := hm
  omega

theorem can_place_spec_d3 {placed : List PlacedPackage} {x y z w h d : Nat}
    (hc : can_place_3d placed x y z w h d = true) :
    ∀ p ∈ placed, x + w ≤ p.x ∨ p.x + p.w ≤ x ∨ y + h ≤ p.y ∨ p.y + p.h ≤ y ∨
      z + d ≤ p.z ∨ p.z + p.d ≤ z := by
  unfold can_place_3d at hc
  rw [List.all_eq_true] at hc
  intro p hp
  have := hc p hp
  simp only [Bool.or_eq_true, decide_eq_true_eq] at this
  tauto

theorem tryRotations_sound_d3 {placed : List PlacedPackage} {W H D : Nat} :
    ∀ {rots : List (String × Nat × Nat × Nat)} {pp : PlacedPackage},
    tryRotations placed W H D rots = some pp →
    inBounds W H D pp ∧ ∀ p ∈ placed, disjointBoxes pp p := by
  intro rots
  induction rots with
  | nil => intro pp hpp; simp [tryRotations] at hpp
  | cons r rest ih =>
    intro pp hpp
    obtain ⟨name, w, h, d⟩ := r
    unfold tryRotations at hpp
    cases hf : findPosition placed W H D w h d with
    | none => rw [hf] at hpp; exact ih hpp
    | some pos =>
      rw [hf] at hpp
      cases hpp
      unfold findPosition at hf
      have hmem := List.mem_of_find?_eq_some hf
      have hpred := List.find?_some hf
      obtain ⟨px, py, pz⟩ := pos
      have hb := mem_candPositions_d3 hmem
      refine ⟨⟨hb.1, hb.2.1, hb.2.2⟩, ?_⟩
      intro p hp
      exact can_place_spec_d3 hpred p hp

theorem Inv_append_d3 {W H D : Nat} {l : List PlacedPackage} {pp : PlacedPackage}
    (hI : Inv W H D l) (hb : inBounds W H D pp)
    (hd : ∀ p ∈ l, disjointBoxes pp p) : Inv W H D (l ++ [pp]) := by
  constructor
  · intro q hq
    rcases List.mem_append.mp hq with hql | hqr
    · exact hI.1 q hql
    · rw [List.mem_singleton] at hqr; subst hqr; exact hb
  · rw [List.pairwise_append]
    refine ⟨hI.2, List.pairwise_singleton _ _, ?_⟩
    intro a ha b hbm
    rw [List.mem_singleton] at hbm; subst hbm
    exact disjointBoxes_symm_d3 (hd a ha)

theorem placeUnits_inv_d3 {rots : List (String × Nat × Nat × Nat)} {baseName : String}
    {W H D : Nat} :
    ∀ q st, Inv W H D st.placed →
    Inv W H D (placeUnits rots baseName W H D q st).1.placed := by
  intro q
  induction q with
  | zero => intro st h; exact h
  | succ n ih =>
    intro st h
    unfold placeUnits
    cases htry : tryRotations st.placed W H D rots with
    | none => exact h
    | some pp =>
      have hs := tryRotations_sound_d3 htry
      exact ih ⟨st.placed ++ [pp], decUnplaced st.unplaced baseName⟩
        (Inv_append_d3 h hs.1 hs.2)

theorem placeUnits_spec_d3 {rots : List (String × Nat × Nat × Nat)} {baseName : String}
    {W H D : Nat} :
    ∀ q st,
    (placeUnits rots baseName W H D q st).2.2 ≤ q ∧
    (((placeUnits rots baseName W H D q st).2.2 = q ∧
      (placeUnits rots baseName W H D q st).2.1 = q) ∨
      (placeUnits rots baseName W H D q st).2.1 + 1 =
        (placeUnits rots baseName W H D q st).2.2) ∧
    (placeUnits rots baseName W H D q st).1.placed.length =
      st.placed.length + (placeUnits rots baseName W H D q st).2.1 ∧
    (∀ k, (placeUnits rots baseName W H D q st).1.unplaced k =
      st.unplaced k -
        (if k = baseName then (placeUnits rots baseName W H D q st).2.1 else 0)) := by
  intro q
  induction q with
  | zero =>
    intro st
    refine ⟨Nat.le_refl 0, Or.inl ⟨rfl, rfl⟩, by simp [placeUnits], ?_⟩
    intro k; simp [placeUnits]
  | succ n ih =>
    intro st
    cases htry : tryRotations st.placed W H D rots with
    | none =>
      simp only [placeUnits, htry]
      exact ⟨by omega, by simp, by simp, fun k => by simp⟩
    | some pp =>
      simp only [placeUnits, htry]
      have h2 := ih ⟨st.placed ++ [pp], decUnplaced st.unplaced baseName⟩
      obtain ⟨ha, hd, hl, hu⟩ := h2
      refine ⟨by omega, ?_, ?_, ?_⟩
      · rcases hd with ⟨h1, h2⟩ | h1
        · exact Or.inl ⟨by omega, by omega⟩
        · exact Or.inr (by omega)
      · simp only [List.length_append, List.length_singleton] at hl
        omega
      · intro k
        have := hu k
        simp only [decUnplaced] at this
        by_cases hk : k = baseName
        · simp only [hk, if_true] at this ⊢
          omega
        · simp only [hk, if_false] at this ⊢
          simpa using this

theorem placePackages_inv_d3 {prob : Problem} {W H D : Nat} :
    ∀ pairs st, Inv W H D st.placed →
    Inv W H D (placePackages prob W H D pairs st).1.placed := by
  intro pairs
  induction pairs with
  | nil => intro st h; exact h
  | cons pr rest ih =>
    intro st h
    obtain ⟨p, q⟩ := pr
    simp only [placePackages]
    exact ih _ (placeUnits_inv_d3 _ _ h)

theorem placePackages_spec_d3 {prob : Problem} {W H D : Nat} :
    ∀ pairs st,
    (∀ k, (placePackages prob W H D pairs st).1.unplaced k =
       st.unplaced k - succSum k (placePackages prob W H D pairs st).2) ∧
    ((placePackages prob W H D pairs st).2.map fun e => e.name) =
      (pairs.map fun pr => pr.1.name) ∧
    (∀ e ∈ (placePackages prob W H D pairs st).2, statOk e) ∧
    (placePackages prob W H D pairs st).1.placed.length =
      st.placed.length +
        (((placePackages prob W H D pairs st).2.map fun e => e.successes).sum) := by
  intro pairs
  induction pairs with
  | nil =>
    intro st
    refine ⟨fun k => by simp [placePackages, succSum], by simp [placePackages], ?_, ?_⟩
    · intro e he; simp [placePackages] at he
    · simp [placePackages]
  | cons pr rest ih =>
    intro st
    obtain ⟨p, q⟩ := pr
    simp only [placePackages]
    have hu := @placeUnits_spec_d3 (generate_rotations prob p (prob.packages.indexOf p))
      p.name W H D q.toNat st
    have hr := ih (placeUnits (generate_rotations prob p (prob.packages.indexOf p))
      p.name W H D q.toNat st).1
    obtain ⟨hu_a, hu_d, hu_l, hu_u⟩ := hu
    obtain ⟨hr_u, hr_n, hr_ok, hr_l⟩ := hr
    refine ⟨?_, ?_, ?_, ?_⟩
    · intro k
      rw [hr_u k, hu_u k, succSum_cons]
      by_cases hk : k = p.name
      · simp only [hk, if_pos rfl, if_pos (Eq.refl p.name)]
        omega
      · have hk2 : ¬ (p.name = k) := fun he => hk he.symm
        simp only [if_neg hk, if_neg hk2]
        omega
    · simpa using hr_n
    · intro e he
      rcases List.mem_cons.mp he with he1 | he2
      · subst he1
        exact ⟨hu_a, hu_d⟩
      · exact hr_ok e he2
    · simp only [List.map_cons, List.sum_cons]
      omega

theorem map_name_zip_d3 {ps : List Package} {qs : List Int} (h : ps.length ≤ qs.length) :
    ((ps.zip qs).map fun pr => pr.1.name) = ps.map fun p => p.name := by
  have h1 : ((ps.zip qs).map Prod.fst).map (fun p => p.name) =
      ps.map fun p => p.name := by
    rw [List.map_fst_zip ps qs h]
  rw [← h1, List.map_map]
  rfl

/-- 3D analogue of `Opt2.decodeContainers_spec_d2`. -/
theorem decodeContainers_spec_d3 {prob : Problem} :
    ∀ cs genes unp out, decodeContainers prob cs genes unp = some out →
    (∀ sol ∈ out.1,
       Inv sol.container.width sol.container.height sol.container.depth
         sol.placed_packages ∧
       sol.placed_packages ≠ [] ∧
       sol.container.width * sol.container.height * sol.container.depth ≠ 0 ∧
       sol.utilization_rate =
         (((sol.placed_packages.map fun pp => pp.w * pp.h * pp.d).sum : Nat) : ℚ) /
           ((sol.container.width * sol.container.height * sol.container.depth : Nat) : ℚ)) ∧
    (∀ k, out.2.2.1 k = unp k - trSucc k out.2.2.2) ∧
    (∀ ce ∈ out.2.2.2,
       ((ce.2.map fun e => e.name) = prob.packages.map fun p => p.name) ∧
       ∀ e ∈ ce.2, statOk e) ∧
    ((out.1.map fun s => s.placed_packages.length).sum =
      (out.2.2.2.map fun ce => (ce.2.map fun e => e.successes).sum).sum) := by
  intro cs
  induction cs with
  | nil =>
    intro genes unp out hdec
    simp only [decodeContainers] at hdec
    cases hdec
    exact ⟨by simp, fun k => by simp [trSucc], by simp, by simp⟩
  | cons c cs ih =>
    intro genes unp out hdec
    cases genes with
    | nil => simp [decodeContainers] at hdec
    | cons g genes2 =>
      by_cases hg : g = 0
      · simp only [decodeContainers, if_pos hg] at hdec
        cases hrec : decodeContainers prob cs (genes2.drop prob.packages.length) unp with
        | none => rw [hrec] at hdec; cases hdec
        | some out2 =>
          obtain ⟨sols, unused, unp2, tr⟩ := out2
          rw [hrec] at hdec
          cases hdec
          have h2 := ih _ _ _ hrec
          exact ⟨h2.1, h2.2.1, h2.2.2.1, h2.2.2.2⟩
      · simp only [decodeContainers, if_neg hg] at hdec
        by_cases hlen : genes2.length < prob.packages.length
        · rw [if_pos hlen] at hdec; cases hdec
        · rw [if_neg hlen] at hdec
          set r := placePackages prob c.width c.height c.depth
            (prob.packages.zip (genes2.take prob.packages.length))
            (⟨[], unp⟩ : PlaceState) with hrdef
          have hspec := @placePackages_spec_d3 prob c.width c.height c.depth
            (prob.packages.zip (genes2.take prob.packages.length)) (⟨[], unp⟩ : PlaceState)
          rw [← hrdef] at hspec
          obtain ⟨hsp_u, hsp_n, hsp_ok, hsp_l⟩ := hspec
          have hnames : (r.2.map fun e => e.name) = prob.packages.map fun p => p.name := by
            rw [hsp_n]
            apply map_name_zip_d3
            rw [List.length_take]
            omega
          by_cases hpl : r.1.placed = []
          · rw [if_pos hpl] at hdec
            cases hrec : decodeContainers prob cs (genes2.drop prob.packages.length)
              r.1.unplaced with
            | none => rw [hrec] at hdec; cases hdec
            | some out2 =>
              obtain ⟨sols, unused, unp2, tr⟩ := out2
              rw [hrec] at hdec
              cases hdec
              have h2 := ih _ _ _ hrec
              have hsucc0 : ((r.2.map fun e => e.successes).sum) = 0 := by
                have := hsp_l
                rw [hpl] at this
                simpa using this.symm
              refine ⟨h2.1, ?_, ?_, ?_⟩
              · intro k
                have ha := h2.2.1 k
                have hb := hsp_u k
                rw [trSucc_cons]
                simp only at ha hb ⊢
                omega
              · intro ce hce
                rcases List.mem_cons.mp hce with hce1 | hce2
                · subst hce1
                  exact ⟨hnames, hsp_ok⟩
                · exact h2.2.2.1 ce hce2
              · have := h2.2.2.2
                simp only [List.map_cons, List.sum_cons] at this ⊢
                omega
          · rw [if_neg hpl] at hdec
            by_cases harea : c.width * c.height * c.depth = 0
            · rw [if_pos harea] at hdec; cases hdec
            · rw [if_neg harea] at hdec
              cases hrec : decodeContainers prob cs (genes2.drop prob.packages.length)
                r.1.unplaced with
              | none => rw [hrec] at hdec; cases hdec
              | some out2 =>
                obtain ⟨sols, unused, unp2, tr⟩ := out2
                rw [hrec] at hdec
                cases hdec
                have h2 := ih _ _ _ hrec
                refine ⟨?_, ?_, ?_, ?_⟩
                · intro sol hsol
                  rcases List.mem_cons.mp hsol with hs1 | hs2
                  · subst hs1
                    refine ⟨?_, hpl, harea, rfl⟩
                    have hInv0 : Inv c.width c.height c.depth
                        (⟨[], unp⟩ : PlaceState).placed := by
                      exact ⟨by simp, List.Pairwise.nil⟩
                    have := @placePackages_inv_d3 prob c.width c.height c.depth
                      (prob.packages.zip (genes2.take prob.packages.length))
                      (⟨[], unp⟩ : PlaceState) hInv0
                    rw [← hrdef] at this
                    exact this
                  · exact h2.1 sol hs2
                · intro k
                  have ha := h2.2.1 k
                  have hb := hsp_u k
                  rw [trSucc_cons]
                  simp only at ha hb ⊢
                  omega
                · intro ce hce
                  rcases List.mem_cons.mp hce with hce1 | hce2
                  · subst hce1
                    exact ⟨hnames, hsp_ok⟩
                  · exact h2.2.2.1 ce hce2
                · have := h2.2.2.2
                  have hl := hsp_l
                  simp only [List.length_nil] at hl
                  simp only [List.map_cons, List.sum_cons] at this ⊢
                  omega

theorem card_cells_d3 (pp : PlacedPackage) : (cells pp).card = pp.w * pp.h * pp.d := by
  simp [cells, Nat.card_Ico, Nat.mul_assoc]

theorem cells_disjoint_d3 {a b : PlacedPackage} (h : disjointBoxes a b) :
    Disjoint (cells a) (cells b) := by
  rw [Finset.disjoint_left]
  rintro ⟨u, v, w'⟩ hma hmb
  simp only [cells, Finset.mem_product, Finset.mem_Ico] at hma hmb
  unfold disjointBoxes at h
  omega

theorem cells_subset_d3 {W H D : Nat} {pp : PlacedPackage} (h : inBounds W H D pp) :
    cells pp ⊆ Finset.Ico 0 W ×ˢ (Finset.Ico 0 H ×ˢ Finset.Ico 0 D) := by
  rintro ⟨u, v, w'⟩ hm
  simp only [cells, Finset.mem_product, Finset.mem_Ico] at hm ⊢
  obtain ⟨h1, h2, h3⟩ := h
  omega

theorem disjoint_cellsUnion_d3 {a : PlacedPackage} :
    ∀ {l : List PlacedPackage}, (∀ p ∈ l, Disjoint (cells a) (cells p)) →
    Disjoint (cells a) (cellsUnion l) := by
  intro l
  induction l with
  | nil => intro _; simp [cellsUnion]
  | cons b t ih =>
    intro h
    simp only [cellsUnion, List.foldr_cons] at ih ⊢
    rw [Finset.disjoint_union_right]
    exact ⟨h b (List.mem_cons_self b t), ih fun p hp => h p (List.mem_cons_of_mem b hp)⟩

theorem sum_area_eq_card_d3 {l : List PlacedPackage} (hp : l.Pairwise disjointBoxes) :
    ((l.map fun pp => pp.w * pp.h * pp.d).sum) = (cellsUnion l).card := by
  induction l with
  | nil => simp [cellsUnion]
  | cons a t ih =>
    rw [List.pairwise_cons] at hp
    have hd : Disjoint (cells a) (cellsUnion t) :=
      disjoint_cellsUnion_d3 fun p hmem => cells_disjoint_d3 (hp.1 p hmem)
    have hcu : cellsUnion (a :: t) = cells a ∪ cellsUnion t := rfl
    simp only [List.map_cons, List.sum_cons, hcu]
    rw [Finset.card_union_of_disjoint hd, card_cells_d3, ih hp.2]

theorem cellsUnion_subset_d3 {W H D : Nat} :
    ∀ {l : List PlacedPackage}, (∀ pp ∈ l, inBounds W H D pp) →
    cellsUnion l ⊆ Finset.Ico 0 W ×ˢ (Finset.Ico 0 H ×ˢ Finset.Ico 0 D) := by
  intro l
  induction l with
  | nil => intro _; simp [cellsUnion]
  | cons a t ih =>
    intro h
    simp only [cellsUnion, List.foldr_cons] at ih ⊢
    exact Finset.union_subset (cells_subset_d3 (h a (List.mem_cons_self a t)))
      (ih fun p hp => h p (List.mem_cons_of_mem a hp))

/-- Pairwise-disjoint in-bounds boxes together cover at most the container
volume. -/
theorem sum_area_le_d3 {W H D : Nat} {l : List PlacedPackage} (h : Inv W H D l) :
    ((l.map fun pp => pp.w * pp.h * pp.d).sum) ≤ W * H * D := by
  rw [sum_area_eq_card_d3 h.2]
  have h1 : (cellsUnion l).card ≤
      (Finset.Ico 0 W ×ˢ (Finset.Ico 0 H ×ˢ Finset.Ico 0 D)).card :=
    Finset.card_le_card (cellsUnion_subset_d3 h.1)
  simpa [Nat.card_Ico, Nat.mul_assoc] using h1

end Opt3

namespace Opt1

theorem tryRotations_sound_d1 {cur L : Nat} :
    ∀ {rots : List (String × Nat)} {pp : PlacedPackage},
    tryRotations cur L rots = some pp →
    pp.position = cur ∧ cur + pp.length ≤ L := by
  intro rots
  induction rots with
  | nil => intro pp hpp; simp [tryRotations] at hpp
  | cons r rest ih =>
    intro pp hpp
    obtain ⟨name, len⟩ := r
    unfold tryRotations at hpp
    by_cases hfit : cur + len ≤ L
    · rw [if_pos hfit] at hpp
      cases hpp
      exact ⟨rfl, hfit⟩
    · rw [if_neg hfit] at hpp
      exact ih hpp

theorem Inv_step {L : Nat} {st : PlaceState} {pp : PlacedPackage}
    (hI : Inv L st) (hpos : pp.position = st.cur) (hfit : st.cur + pp.length ≤ L) :
    Inv L (⟨st.placed ++ [pp], st.cur + pp.length, decUnplaced st.unplaced pp.package_name⟩ :
      PlaceState) := by
  obtain ⟨hend, hcur, hsum, hpair⟩ := hI
  refine ⟨?_, hfit, ?_, ?_⟩
  · intro q hq
    dsimp only
    rcases List.mem_append.mp hq with hql | hqr
    · have := hend q hql
      omega
    · rw [List.mem_singleton] at hqr; subst hqr
      omega
  · simp only [List.map_append, List.sum_append, List.map_cons, List.map_nil,
      List.sum_cons, List.sum_nil]
    omega
  · rw [List.pairwise_append]
    refine ⟨hpair, List.pairwise_singleton _ _, ?_⟩
    intro a ha b hbm
    rw [List.mem_singleton] at hbm; subst hbm
    left
    have := hend a ha
    omega

theorem placeUnits_inv_d1 {rots : List (String × Nat)} {baseName : String} {L : Nat} :
    ∀ q st, Inv L st → Inv L (placeUnits rots baseName L q st).1 := by
  intro q
  induction q with
  | zero => intro st h; exact h
  | succ n ih =>
    intro st h
    cases htry : tryRotations st.cur L rots with
    | none => simpa [placeUnits, htry] using h
    | some pp =>
      simp only [placeUnits, htry]
      have hs := tryRotations_sound_d1 htry
      have hstep := Inv_step h hs.1 hs.2
      have hpos : pp.position = st.cur := hs.1
      -- the recorded new state uses `decUnplaced _ baseName`; `Inv` does not
      -- mention `unplaced`, so transport along the state with that field
      have : Inv L (⟨st.placed ++ [pp], st.cur + pp.length,
          decUnplaced st.unplaced baseName⟩ : PlaceState) := by
        obtain ⟨h1, h2, h3, h4⟩ := hstep
        exact ⟨h1, h2, h3, h4⟩
      exact ih _ this

theorem placeUnits_spec_d1 {rots : List (String × Nat)} {baseName : String} {L : Nat} :
    ∀ q st,
    (placeUnits rots baseName L q st).2.2 ≤ q ∧
    (((placeUnits rots baseName L q st).2.2 = q ∧
      (placeUnits rots baseName L q st).2.1 = q) ∨
      (placeUnits rots baseName L q st).2.1 + 1 = (placeUnits rots baseName L q st).2.2) ∧
    (placeUnits rots baseName L q st).1.placed.length =
      st.placed.length + (placeUnits rots baseName L q st).2.1 ∧
    (∀ k, (placeUnits rots baseName L q st).1.unplaced k =
      st.unplaced k - (if k = baseName then (placeUnits rots baseName L q st).2.1 else 0)) := by
  intro q
  induction q with
  | zero =>
    intro st
    refine ⟨Nat.le_refl 0, Or.inl ⟨rfl, rfl⟩, by simp [placeUnits], ?_⟩
    intro k; simp [placeUnits]
  | succ n ih =>
    intro st
    cases htry : tryRotations st.cur L rots with
    | none =>
      simp only [placeUnits, htry]
      exact ⟨by omega, by simp, by simp, fun k => by simp⟩
    | some pp =>
      simp only [placeUnits, htry]
      have h2 := ih ⟨st.placed ++ [pp], st.cur + pp.length, decUnplaced st.unplaced baseName⟩
      obtain ⟨ha, hd, hl, hu⟩ := h2
      refine ⟨by omega, ?_, ?_, ?_⟩
      · rcases hd with ⟨h1, h2⟩ | h1
        · exact Or.inl ⟨by omega, by omega⟩
        · exact Or.inr (by omega)
      · simp only [List.length_append, List.length_singleton] at hl
        omega
      · intro k
        have := hu k
        simp only [decUnplaced] at this
        by_cases hk : k = baseName
        · simp only [hk, if_true] at this ⊢
          omega
        · simp only [hk, if_false] at this ⊢
          simpa using this

theorem placePackages_inv_d1 {L : Nat} :
    ∀ pairs st, Inv L st → Inv L (placePackages L pairs st).1 := by
  intro pairs
  induction pairs with
  | nil => intro st h; exact h
  | cons pr rest ih =>
    intro st h
    obtain ⟨p, q⟩ := pr
    simp only [placePackages]
    exact ih _ (placeUnits_inv_d1 _ _ h)

theorem placePackages_spec_d1 {L : Nat} :
    ∀ pairs st,
    (∀ k, (placePackages L pairs st).1.unplaced k =
       st.unplaced k - succSum k (placePackages L pairs st).2) ∧
    ((placePackages L pairs st).2.map fun e => e.name) =
      (pairs.map fun pr => pr.1.name) ∧
    (∀ e ∈ (placePackages L pairs st).2, statOk e) ∧
    (placePackages L pairs st).1.placed.length =
      st.placed.length + (((placePackages L pairs st).2.map fun e => e.successes).sum) := by
  intro pairs
  induction pairs with
  | nil =>
    intro st
    refine ⟨fun k => by simp [placePackages, succSum], by simp [placePackages], ?_, ?_⟩
    · intro e he; simp [placePackages] at he
    · simp [placePackages]
  | cons pr rest ih =>
    intro st
    obtain ⟨p, q⟩ := pr
    simp only [placePackages]
    have hu := @placeUnits_spec_d1 (generate_rotations p) p.name L q.toNat st
    have hr := ih (placeUnits (generate_rotations p) p.name L q.toNat st).1
    obtain ⟨hu_a, hu_d, hu_l, hu_u⟩ := hu
    obtain ⟨hr_u, hr_n, hr_ok, hr_l⟩ := hr
    refine ⟨?_, ?_, ?_, ?_⟩
    · intro k
      rw [hr_u k, hu_u k, succSum_cons]
      by_cases hk : k = p.name
      · simp only [hk, if_pos rfl, if_pos (Eq.refl p.name)]
        omega
      · have hk2 : ¬ (p.name = k) := fun he => hk he.symm
        simp only [if_neg hk, if_neg hk2]
        omega
    · simpa using hr_n
    · intro e he
      rcases List.mem_cons.mp he with he1 | he2
      · subst he1
        exact ⟨hu_a, hu_d⟩
      · exact hr_ok e he2
    · simp only [List.map_cons, List.sum_cons]
      omega

theorem map_name_zip_d1 {ps : List Package} {qs : List Int} (h : ps.length ≤ qs.length) :
    ((ps.zip qs).map fun pr => pr.1.name) = ps.map fun p => p.name := by
  have h1 : ((ps.zip qs).map Prod.fst).map (fun p => p.name) =
      ps.map fun p => p.name := by
    rw [List.map_fst_zip ps qs h]
  rw [← h1, List.map_map]
  rfl

/-- 1D analogue of `Opt2.decodeContainers_spec_d2`; here the geometric bound
comes directly from the fill-cursor invariant. -/
theorem decodeContainers_spec_d1 {prob : Problem} :
    ∀ cs genes unp out, decodeContainers prob cs genes unp = some out →
    (∀ sol ∈ out.1,
       (∀ pp ∈ sol.placed_packages, inBounds sol.container.length pp) ∧
       sol.placed_packages.Pairwise disjointBoxes ∧
       ((sol.placed_packages.map fun pp => pp.length).sum) ≤ sol.container.length ∧
       sol.placed_packages ≠ [] ∧
       sol.container.length ≠ 0 ∧
       sol.utilization_rate =
         (((sol.placed_packages.map fun pp => pp.length).sum : Nat) : ℚ) /
           ((sol.container.length : Nat) : ℚ)) ∧
    (∀ k, out.2.2.1 k = unp k - trSucc k out.2.2.2) ∧
    (∀ ce ∈ out.2.2.2,
       ((ce.2.map fun e => e.name) = prob.packages.map fun p => p.name) ∧
       ∀ e ∈ ce.2, statOk e) ∧
    ((out.1.map fun s => s.placed_packages.length).sum =
      (out.2.2.2.map fun ce => (ce.2.map fun e => e.successes).sum).sum) := by
  intro cs
  induction cs with
  | nil =>
    intro genes unp out hdec
    simp only [decodeContainers] at hdec
    cases hdec
    exact ⟨by simp, fun k => by simp [trSucc], by simp, by simp⟩
  | cons c cs ih =>
    intro genes unp out hdec
    cases genes with
    | nil => simp [decodeContainers] at hdec
    | cons g genes2 =>
      by_cases hg : g = 0
      · simp only [decodeContainers, if_pos hg] at hdec
        cases hrec : decodeContainers prob cs (genes2.drop prob.packages.length) unp with
        | none => rw [hrec] at hdec; cases hdec
        | some out2 =>
          obtain ⟨sols, unused, unp2, tr⟩ := out2
          rw [hrec] at hdec
          cases hdec
          have h2 := ih _ _ _ hrec
          exact ⟨h2.1, h2.2.1, h2.2.2.1, h2.2.2.2⟩
      · simp only [decodeContainers, if_neg hg] at hdec
        by_cases hlen : genes2.length < prob.packages.length
        · rw [if_pos hlen] at hdec; cases hdec
        · rw [if_neg hlen] at hdec
          set r := placePackages c.length
            (prob.packages.zip (genes2.take prob.packages.length))
            (⟨[], 0, unp⟩ : PlaceState) with hrdef
          have hspec := placePackages_spec_d1 (L := c.length)
            (prob.packages.zip (genes2.take prob.packages.length))
            (⟨[], 0, unp⟩ : PlaceState)
          rw [← hrdef] at hspec
          obtain ⟨hsp_u, hsp_n, hsp_ok, hsp_l⟩ := hspec
          have hnames : (r.2.map fun e => e.name) = prob.packages.map fun p => p.name := by
            rw [hsp_n]
            apply map_name_zip_d1
            rw [List.length_take]
            omega
          have hInv0 : Inv c.length (⟨[], 0, unp⟩ : PlaceState) :=
            ⟨by simp, Nat.zero_le _, by simp, List.Pairwise.nil⟩
          have hInvr : Inv c.length r.1 := by
            have := placePackages_inv_d1 (L := c.length)
              (prob.packages.zip (genes2.take prob.packages.length))
              (⟨[], 0, unp⟩ : PlaceState) hInv0
            rw [← hrdef] at this
            exact this
          by_cases hpl : r.1.placed = []
          · rw [if_pos hpl] at hdec
            cases hrec : decodeContainers prob cs (genes2.drop prob.packages.length)
              r.1.unplaced with
            | none => rw [hrec] at hdec; cases hdec
            | some out2 =>
              obtain ⟨sols, unused, unp2, tr⟩ := out2
              rw [hrec] at hdec
              cases hdec
              have h2 := ih _ _ _ hrec
              have hsucc0 : ((r.2.map fun e => e.successes).sum) = 0 := by
                have := hsp_l
                rw [hpl] at this
                simpa using this.symm
              refine ⟨h2.1, ?_, ?_, ?_⟩
              · intro k
                have ha := h2.2.1 k
                have hb := hsp_u k
                rw [trSucc_cons]
                simp only at ha hb ⊢
                omega
              · intro ce hce
                rcases List.mem_cons.mp hce with hce1 | hce2
                · subst hce1
                  exact ⟨hnames, hsp_ok⟩
                · exact h2.2.2.1 ce hce2
              · have := h2.2.2.2
                simp only [List.map_cons, List.sum_cons] at this ⊢
                omega
          · rw [if_neg hpl] at hdec
            by_cases harea : c.length = 0
            · rw [if_pos harea] at hdec; cases hdec
            · rw [if_neg harea] at hdec
              cases hrec : decodeContainers prob cs (genes2.drop prob.packages.length)
                r.1.unplaced with
              | none => rw [hrec] at hdec; cases hdec
              | some out2 =>
                obtain ⟨sols, unused, unp2, tr⟩ := out2
                rw [hrec] at hdec
                cases hdec
                have h2 := ih _ _ _ hrec
                refine ⟨?_, ?_, ?_, ?_⟩
                · intro sol hsol
                  rcases List.mem_cons.mp hsol with hs1 | hs2
                  · subst hs1
                    obtain ⟨hend, hcur, hsum, hpair⟩ := hInvr
                    refine ⟨?_, hpair, ?_, hpl, harea, rfl⟩
                    · intro pp hpp
                      have := hend pp hpp
                      unfold inBounds
                      dsimp only
                      omega
                    · dsimp only
                      omega
                  · exact h2.1 sol hs2
                · intro k
                  have ha := h2.2.1 k
                  have hb := hsp_u k
                  rw [trSucc_cons]
                  simp only at ha hb ⊢
                  omega
                · intro ce hce
                  rcases List.mem_cons.mp hce with hce1 | hce2
                  · subst hce1
                    exact ⟨hnames, hsp_ok⟩
                  · exact h2.2.2.1 ce hce2
                · have := h2.2.2.2
                  have hl := hsp_l
                  simp only [List.length_nil] at hl
                  simp only [List.map_cons, List.sum_cons] at this ⊢
                  omega

end Opt1

namespace Opt2

theorem decodeWithStats_inv_d2 {prob : Problem} {genome : List Int}
    {r : OptimizationResult} {tr : List (String × List PkgStat)}
    (h : decodeWithStats prob genome = some (r, tr)) :
    decodeContainers prob prob.containers genome (initUnplaced prob) =
      some (r.container_solutions, r.unused_containers, r.unplaced_packages, tr) := by
  unfold decodeWithStats at h
  cases hdec : decodeContainers prob prob.containers genome (initUnplaced prob) with
  | none => rw [hdec] at h; cases h
  | some out =>
    obtain ⟨sols, unused, unp, tr0⟩ := out
    rw [hdec] at h
    cases h
    rfl

theorem decode_inv_d2 {prob : Problem} {genome : List Int} {r : OptimizationResult}
    (h : decode_solution prob genome = some r) :
    ∃ tr, decodeContainers prob prob.containers genome (initUnplaced prob) =
      some (r.container_solutions, r.unused_containers, r.unplaced_packages, tr) := by
  unfold decode_solution at h
  cases hws : decodeWithStats prob genome with
  | none => rw [hws] at h; cases h
  | some out =>
    obtain ⟨r0, tr⟩ := out
    rw [hws] at h
    cases h
    exact ⟨tr, decodeWithStats_inv_d2 hws⟩

end Opt2

namespace Opt3

theorem decodeWithStats_inv_d3 {prob : Problem} {genome : List Int}
    {r : OptimizationResult} {tr : List (String × List PkgStat)}
    (h : decodeWithStats prob genome = some (r, tr)) :
    decodeContainers prob prob.containers genome (initUnplaced prob) =
      some (r.container_solutions, r.unused_containers, r.unplaced_packages, tr) := by
  unfold decodeWithStats at h
  cases hdec : decodeContainers prob prob.containers genome (initUnplaced prob) with
  | none => rw [hdec] at h; cases h
  | some out =>
    obtain ⟨sols, unused, unp, tr0⟩ := out
    rw [hdec] at h
    cases h
    rfl

theorem decode_inv_d3 {prob : Problem} {genome : List Int} {r : OptimizationResult}
    (h : decode_solution prob genome = some r) :
    ∃ tr, decodeContainers prob prob.containers genome (initUnplaced prob) =
      some (r.container_solutions, r.unused_containers, r.unplaced_packages, tr) := by
  unfold decode_solution at h
  cases hws : decodeWithStats prob genome with
  | none => rw [hws] at h; cases h
  | some out =>
    obtain ⟨r0, tr⟩ := out
    rw [hws] at h
    cases h
    exact ⟨tr, decodeWithStats_inv_d3 hws⟩

end Opt3

namespace Opt1

theorem decodeWithStats_inv_d1 {prob : Problem} {genome : List Int}
    {r : OptimizationResult} {tr : List (String × List PkgStat)}
    (h : decodeWithStats prob genome = some (r, tr)) :
    decodeContainers prob prob.containers genome (initUnplaced prob) =
      some (r.container_solutions, r.unused_containers, r.unplaced_packages, tr) := by
  unfold decodeWithStats at h
  cases hdec : decodeContainers prob prob.containers genome (initUnplaced prob) with
  | none => rw [hdec] at h; cases h
  | some out =>
    obtain ⟨sols, unused, unp, tr0⟩ := out
    rw [hdec] at h
    cases h
    rfl

theorem decode_inv_d1 {prob : Problem} {genome : List Int} {r : OptimizationResult}
    (h : decode_solution prob genome = some r) :
    ∃ tr, decodeContainers prob prob.containers genome (initUnplaced prob) =
      some (r.container_solutions, r.unused_containers, r.unplaced_packages, tr) := by
  unfold decode_solution at h
  cases hws : decodeWithStats prob genome with
  | none => rw [hws] at h; cases h
  | some out =>
    obtain ⟨r0, tr⟩ := out
    rw [hws] at h
    cases h
    exact ⟨tr, decodeWithStats_inv_d1 hws⟩

end Opt1

/-- C1: for every PackingProblem and every genome, in every
ContainerSolution produced by `_decode_solution`, every PlacedPackage is in
bounds (`position[i] + dimensions[i] <= container.dimensions[i]` on every
axis) and the placed packages are pairwise non-overlapping (some axis has
disjoint intervals), for the 2D, 3D and 1D decoders. -/
theorem C1_decoded_placements_in_bounds_and_disjoint :
    (∀ (prob : Opt2.Problem) (genome : List Int) (r : Opt2.OptimizationResult),
      Opt2.decode_solution prob genome = some r →
      ∀ sol ∈ r.container_solutions,
        (∀ pp ∈ sol.placed_packages,
          Opt2.inBounds sol.container.width sol.container.height pp) ∧
        sol.placed_packages.Pairwise Opt2.disjointBoxes) ∧
    (∀ (prob : Opt3.Problem) (genome : List Int) (r : Opt3.OptimizationResult),
      Opt3.decode_solution prob genome = some r →
      ∀ sol ∈ r.container_solutions,
        (∀ pp ∈ sol.placed_packages,
          Opt3.inBounds sol.container.width sol.container.height sol.container.depth pp) ∧
        sol.placed_packages.Pairwise Opt3.disjointBoxes) ∧
    (∀ (prob : Opt1.Problem) (genome : List Int) (r : Opt1.OptimizationResult),
      Opt1.decode_solution prob genome = some r →
      ∀ sol ∈ r.container_solutions,
        (∀ pp ∈ sol.placed_packages, Opt1.inBounds sol.container.length pp) ∧
        sol.placed_packages.Pairwise Opt1.disjointBoxes) := by
  refine ⟨?_, ?_, ?_⟩
  · intro prob genome r h sol hsol
    obtain ⟨tr, hdec⟩ := Opt2.decode_inv_d2 h
    have hs := Opt2.decodeContainers_spec_d2 _ _ _ _ hdec
    have hfacts := hs.1 sol hsol
    exact ⟨hfacts.1.1, hfacts.1.2⟩
  · intro prob genome r h sol hsol
    obtain ⟨tr, hdec⟩ := Opt3.decode_inv_d3 h
    have hs := Opt3.decodeContainers_spec_d3 _ _ _ _ hdec
    have hfacts := hs.1 sol hsol
    exact ⟨hfacts.1.1, hfacts.1.2⟩
  · intro prob genome r h sol hsol
    obtain ⟨tr, hdec⟩ := Opt1.decode_inv_d1 h
    have hs := Opt1.decodeContainers_spec_d1 _ _ _ _ hdec
    have hfacts := hs.1 sol hsol
    exact ⟨hfacts.1, hfacts.2.1⟩

/-- Concrete instantiation of C1 on the Scenario B, 3D-witness and
Scenario A decodes. -/
theorem C1_decoded_placements_in_bounds_and_disjoint_witness :
    (Opt2.inBounds Scen.solB.container.width Scen.solB.container.height Scen.ppB ∧
      Scen.solB.placed_packages.Pairwise Opt2.disjointBoxes) ∧
    (Opt3.inBounds Scen.sol3.container.width Scen.sol3.container.height
      Scen.sol3.container.depth Scen.pp3 ∧
      Scen.sol3.placed_packages.Pairwise Opt3.disjointBoxes) ∧
    (Opt1.inBounds Scen.solA.container.length Scen.ppA ∧
      Scen.solA.placed_packages.Pairwise Opt1.disjointBoxes) := by
  have hB := C1_decoded_placements_in_bounds_and_disjoint.1 Scen.probB [1, 5] Scen.rB rfl
    Scen.solB (by rw [show Scen.rB.container_solutions = [Scen.solB] from rfl]; exact List.mem_singleton.mpr rfl)
  have h3 := C1_decoded_placements_in_bounds_and_disjoint.2.1 Scen.prob3 [1, 9] Scen.r3 rfl
    Scen.sol3 (by rw [show Scen.r3.container_solutions = [Scen.sol3] from rfl]; exact List.mem_singleton.mpr rfl)
  have hA := C1_decoded_placements_in_bounds_and_disjoint.2.2 Scen.probA [1, 3] Scen.rA rfl
    Scen.solA (by rw [show Scen.rA.container_solutions = [Scen.solA] from rfl]; exact List.mem_singleton.mpr rfl)
  refine ⟨⟨?_, hB.2⟩, ⟨?_, h3.2⟩, ⟨?_, hA.2⟩⟩
  · exact hB.1 Scen.ppB (by
      rw [show Scen.solB.placed_packages =
        [Scen.ppB, ⟨"P", 5, 0, 5, 5, none⟩, ⟨"P", 0, 5, 5, 5, none⟩,
          ⟨"P", 5, 5, 5, 5, none⟩] from rfl]
      exact List.mem_cons_self _ _)
  · exact h3.1 Scen.pp3 (by
      rw [show Scen.sol3.placed_packages =
        [Scen.pp3, ⟨"B", 2, 0, 0, 2, 3, 4, none⟩] from rfl]
      exact List.mem_cons_self _ _)
  · exact hA.1 Scen.ppA (by
      rw [show Scen.solA.placed_packages =
        [Scen.ppA, ⟨"A", 4, 4, some "A"⟩] from rfl]
      exact List.mem_cons_self _ _)

/-- C8: every ContainerSolution in a decoded result has
`utilization_rate ∈ [0, 1]` — the summed extents of the placed packages
never exceed the container extent, whose value is positive on the path that
computes a utilization (2D, 3D and 1D decoders). -/
theorem C8_utilization_rate_in_unit_interval :
    (∀ (prob : Opt2.Problem) (genome : List Int) (r : Opt2.OptimizationResult),
      Opt2.decode_solution prob genome = some r →
      ∀ sol ∈ r.container_solutions,
        0 ≤ sol.utilization_rate ∧ sol.utilization_rate ≤ 1) ∧
    (∀ (prob : Opt3.Problem) (genome : List Int) (r : Opt3.OptimizationResult),
      Opt3.decode_solution prob genome = some r →
      ∀ sol ∈ r.container_solutions,
        0 ≤ sol.utilization_rate ∧ sol.utilization_rate ≤ 1) ∧
    (∀ (prob : Opt1.Problem) (genome : List Int) (r : Opt1.OptimizationResult),
      Opt1.decode_solution prob genome = some r →
      ∀ sol ∈ r.container_solutions,
        0 ≤ sol.utilization_rate ∧ sol.utilization_rate ≤ 1) := by
  refine ⟨?_, ?_, ?_⟩
  · intro prob genome r h sol hsol
    obtain ⟨tr, hdec⟩ := Opt2.decode_inv_d2 h
    have hs := Opt2.decodeContainers_spec_d2 _ _ _ _ hdec
    obtain ⟨hInv, _hne, harea, hutil⟩ := hs.1 sol hsol
    have hle := Opt2.sum_area_le_d2 hInv
    rw [hutil]
    have hpos : (0 : ℚ) < ((sol.container.width * sol.container.height : Nat) : ℚ) := by
      exact_mod_cast Nat.pos_of_ne_zero harea
    constructor
    · positivity
    · rw [div_le_one hpos]
      exact_mod_cast hle
  · intro prob genome r h sol hsol
    obtain ⟨tr, hdec⟩ := Opt3.decode_inv_d3 h
    have hs := Opt3.decodeContainers_spec_d3 _ _ _ _ hdec
    obtain ⟨hInv, _hne, harea, hutil⟩ := hs.1 sol hsol
    have hle := Opt3.sum_area_le_d3 hInv
    rw [hutil]
    have hpos : (0 : ℚ) <
        ((sol.container.width * sol.container.height * sol.container.depth : Nat) : ℚ) := by
      exact_mod_cast Nat.pos_of_ne_zero harea
    constructor
    · positivity
    · rw [div_le_one hpos]
      exact_mod_cast hle
  · intro prob genome r h sol hsol
    obtain ⟨tr, hdec⟩ := Opt1.decode_inv_d1 h
    have hs := Opt1.decodeContainers_spec_d1 _ _ _ _ hdec
    obtain ⟨_hb, _hp, hle, _hne, harea, hutil⟩ := hs.1 sol hsol
    rw [hutil]
    have hpos : (0 : ℚ) < ((sol.container.length : Nat) : ℚ) := by
      exact_mod_cast Nat.pos_of_ne_zero harea
    constructor
    · positivity
    · rw [div_le_one hpos]
      exact_mod_cast hle

/-- Concrete instantiation of C8 on the Scenario B, 3D-witness and
Scenario A decodes. -/
theorem C8_utilization_rate_in_unit_interval_witness :
    (0 ≤ Scen.solB.utilization_rate ∧ Scen.solB.utilization_rate ≤ 1) ∧
    (0 ≤ Scen.sol3.utilization_rate ∧ Scen.sol3.utilization_rate ≤ 1) ∧
    (0 ≤ Scen.solA.utilization_rate ∧ Scen.solA.utilization_rate ≤ 1) := by
  refine ⟨?_, ?_, ?_⟩
  · exact C8_utilization_rate_in_unit_interval.1 Scen.probB [1, 5] Scen.rB rfl
      Scen.solB (by rw [show Scen.rB.container_solutions = [Scen.solB] from rfl]; exact List.mem_singleton.mpr rfl)
  · exact C8_utilization_rate_in_unit_interval.2.1 Scen.prob3 [1, 9] Scen.r3 rfl
      Scen.sol3 (by rw [show Scen.r3.container_solutions = [Scen.sol3] from rfl]; exact List.mem_singleton.mpr rfl)
  · exact C8_utilization_rate_in_unit_interval.2.2 Scen.probA [1, 3] Scen.rA rfl
      Scen.solA (by rw [show Scen.rA.container_solutions = [Scen.solA] from rfl]; exact List.mem_singleton.mpr rfl)

/-- C2: during decoding of a used container, package types are handled in
package-list order (the per-container trace lists exactly the problem's
package names, in order), and for each package type the unit loop either
places every requested unit or stops right after its single failing
attempt — no further units of that type are attempted in that container
(`statOk`).  Proved for the 2D and 1D decoders cited by the claim. -/
theorem C2_fail_fast_per_package_type :
    (∀ (prob : Opt2.Problem) (genome : List Int) (r : Opt2.OptimizationResult)
      (tr : List (String × List PkgStat)),
      Opt2.decodeWithStats prob genome = some (r, tr) →
      ∀ ce ∈ tr,
        ((ce.2.map fun e => e.name) = prob.packages.map fun p => p.name) ∧
        ∀ e ∈ ce.2, statOk e) ∧
    (∀ (prob : Opt1.Problem) (genome : List Int) (r : Opt1.OptimizationResult)
      (tr : List (String × List PkgStat)),
      Opt1.decodeWithStats prob genome = some (r, tr) →
      ∀ ce ∈ tr,
        ((ce.2.map fun e => e.name) = prob.packages.map fun p => p.name) ∧
        ∀ e ∈ ce.2, statOk e) := by
  constructor
  · intro prob genome r tr h ce hce
    have hdec := Opt2.decodeWithStats_inv_d2 h
    have hs := Opt2.decodeContainers_spec_d2 _ _ _ _ hdec
    exact hs.2.2.1 ce hce
  · intro prob genome r tr h ce hce
    have hdec := Opt1.decodeWithStats_inv_d1 h
    have hs := Opt1.decodeContainers_spec_d1 _ _ _ _ hdec
    exact hs.2.2.1 ce hce

/-- Concrete instantiation of C2: in Scenario B, 5 units requested, 4
placed, 5 attempts (failure on the last attempt); in Scenario A, 3 units
requested, 2 placed, 3 attempts. -/
theorem C2_fail_fast_per_package_type_witness :
    ((Scen.ceB.2.map fun e => e.name) = Scen.probB.packages.map fun p => p.name) ∧
    statOk Scen.eB ∧
    ((Scen.ceA.2.map fun e => e.name) = Scen.probA.packages.map fun p => p.name) ∧
    statOk Scen.eA := by
  have hB := C2_fail_fast_per_package_type.1 Scen.probB [1, 5] Scen.rB Scen.trB rfl
    Scen.ceB (by rw [show Scen.trB = [Scen.ceB] from rfl]; exact List.mem_singleton.mpr rfl)
  have hA := C2_fail_fast_per_package_type.2 Scen.probA [1, 3] Scen.rA Scen.trA rfl
    Scen.ceA (by rw [show Scen.trA = [Scen.ceA] from rfl]; exact List.mem_singleton.mpr rfl)
  refine ⟨hB.1, ?_, hA.1, ?_⟩
  · exact hB.2 Scen.eB
      (by rw [show Scen.ceB.2 = [Scen.eB] from rfl]; exact List.mem_singleton.mpr rfl)
  · exact hA.2 Scen.eA
      (by rw [show Scen.ceA.2 = [Scen.eA] from rfl]; exact List.mem_singleton.mpr rfl)

namespace Opt2

theorem foldl_upd_notmem_d2 {l : List Package} {m : String → Nat} {k : String}
    (h : k ∉ l.map fun p => p.name) :
    l.foldl (fun m2 p => fun k2 => if k2 = p.name then p.max_quantity else m2 k2) m k
      = m k := by
  induction l generalizing m with
  | nil => rfl
  | cons q t ih =>
    simp only [List.map_cons, List.mem_cons] at h
    push_neg at h
    simp only [List.foldl_cons]
    rw [ih h.2]
    simp [h.1]

theorem foldl_upd_eq_d2 :
    ∀ (l : List Package) (m : String → Nat),
    (l.map fun p => p.name).Nodup → ∀ p ∈ l,
    l.foldl (fun m2 p2 => fun k2 => if k2 = p2.name then p2.max_quantity else m2 k2) m p.name
      = p.max_quantity := by
  intro l
  induction l with
  | nil => intro m _ p hp; cases hp
  | cons q t ih =>
    intro m hnd p hp
    simp only [List.map_cons, List.nodup_cons] at hnd
    rcases List.mem_cons.mp hp with hq | ht
    · subst hq
      simp only [List.foldl_cons]
      rw [foldl_upd_notmem_d2 hnd.1]
      simp
    · simp only [List.foldl_cons]
      exact ih _ hnd.2 p ht

theorem initUnplaced_eq_d2 {prob : Problem}
    (hnd : (prob.packages.map fun p => p.name).Nodup) :
    ∀ p ∈ prob.packages, initUnplaced prob p.name = p.max_quantity := by
  intro p hp
  exact foldl_upd_eq_d2 prob.packages _ hnd p hp

end Opt2

namespace Opt1

theorem foldl_upd_notmem_d1 {l : List Package} {m : String → Nat} {k : String}
    (h : k ∉ l.map fun p => p.name) :
    l.foldl (fun m2 p => fun k2 => if k2 = p.name then p.max_quantity else m2 k2) m k
      = m k := by
  induction l generalizing m with
  | nil => rfl
  | cons q t ih =>
    simp only [List.map_cons, List.mem_cons] at h
    push_neg at h
    simp only [List.foldl_cons]
    rw [ih h.2]
    simp [h.1]

theorem foldl_upd_eq_d1 :
    ∀ (l : List Package) (m : String → Nat),
    (l.map fun p => p.name).Nodup → ∀ p ∈ l,
    l.foldl (fun m2 p2 => fun k2 => if k2 = p2.name then p2.max_quantity else m2 k2) m p.name
      = p.max_quantity := by
  intro l
  induction l with
  | nil => intro m _ p hp; cases hp
  | cons q t ih =>
    intro m hnd p hp
    simp only [List.map_cons, List.nodup_cons] at hnd
    rcases List.mem_cons.mp hp with hq | ht
    · subst hq
      simp only [List.foldl_cons]
      rw [foldl_upd_notmem_d1 hnd.1]
      simp
    · simp only [List.foldl_cons]
      exact ih _ hnd.2 p ht

theorem initUnplaced_eq_d1 {prob : Problem}
    (hnd : (prob.packages.map fun p => p.name).Nodup) :
    ∀ p ∈ prob.packages, initUnplaced prob p.name = p.max_quantity := by
  intro p hp
  exact foldl_upd_eq_d1 prob.packages _ hnd p hp

end Opt1

/-- C10: for every genome (with the problem's package names distinct, as
the data model requires of its unique keys), the decoded
`unplaced_packages` maps each package name to
`max(0, max_quantity - units of that package placed across all used
containers)`: the count starts at `max_quantity` independent of the
requested per-container quantities, is decremented once per successful
placement, and never becomes negative.  The second conjunct ties the
ghost success counts to the actual number of `PlacedPackage`s recorded.
Proved for the 2D and 1D decoders cited by the claim. -/
theorem C10_unplaced_is_clamped_max_minus_placed :
    (∀ (prob : Opt2.Problem) (genome : List Int) (r : Opt2.OptimizationResult)
      (tr : List (String × List PkgStat)),
      Opt2.decodeWithStats prob genome = some (r, tr) →
      (prob.packages.map fun p => p.name).Nodup →
      (∀ p ∈ prob.packages,
        ((r.unplaced_packages p.name : ℤ) =
          max 0 ((p.max_quantity : ℤ) - (trSucc p.name tr : ℤ)))) ∧
      ((r.container_solutions.map fun s => s.placed_packages.length).sum =
        (tr.map fun ce => (ce.2.map fun e => e.successes).sum).sum)) ∧
    (∀ (prob : Opt1.Problem) (genome : List Int) (r : Opt1.OptimizationResult)
      (tr : List (String × List PkgStat)),
      Opt1.decodeWithStats prob genome = some (r, tr) →
      (prob.packages.map fun p => p.name).Nodup →
      (∀ p ∈ prob.packages,
        ((r.unplaced_packages p.name : ℤ) =
          max 0 ((p.max_quantity : ℤ) - (trSucc p.name tr : ℤ)))) ∧
      ((r.container_solutions.map fun s => s.placed_packages.length).sum =
        (tr.map fun ce => (ce.2.map fun e => e.successes).sum).sum)) := by
  constructor
  · intro prob genome r tr h hnd
    have hdec := Opt2.decodeWithStats_inv_d2 h
    have hs := Opt2.decodeContainers_spec_d2 _ _ _ _ hdec
    refine ⟨?_, hs.2.2.2⟩
    intro p hp
    have hinit := Opt2.initUnplaced_eq_d2 hnd p hp
    have hu := hs.2.1 p.name
    simp only at hu
    rw [hu, hinit]
    omega
  · intro prob genome r tr h hnd
    have hdec := Opt1.decodeWithStats_inv_d1 h
    have hs := Opt1.decodeContainers_spec_d1 _ _ _ _ hdec
    refine ⟨?_, hs.2.2.2⟩
    intro p hp
    have hinit := Opt1.initUnplaced_eq_d1 hnd p hp
    have hu := hs.2.1 p.name
    simp only at hu
    rw [hu, hinit]
    omega

/-- Concrete instantiation of C10 on the Scenario B and Scenario A
decodes. -/
theorem C10_unplaced_is_clamped_max_minus_placed_witness :
    ((Scen.rB.unplaced_packages "P" : ℤ) =
      max 0 (((5 : Nat) : ℤ) - (trSucc "P" Scen.trB : ℤ))) ∧
    ((Scen.rA.unplaced_packages "A" : ℤ) =
      max 0 (((3 : Nat) : ℤ) - (trSucc "A" Scen.trA : ℤ))) := by
  have hB := (C10_unplaced_is_clamped_max_minus_placed.1 Scen.probB [1, 5] Scen.rB Scen.trB
    rfl (by decide)).1 ⟨"P", 5, 5, 1, 5⟩ (by decide)
  have hA := (C10_unplaced_is_clamped_max_minus_placed.2 Scen.probA [1, 3] Scen.rA Scen.trA
    rfl (by decide)).1 ⟨"A", 4, 1, 3⟩ (by decide)
  exact ⟨hB, hA⟩

/-- C3: the fitness evaluator returns
`total_efficiency * (1 - (containers_used / total_containers) * 0.1)` with
both quantities taken from the decoded result, and returns fitness `0`
instead of propagating any decoding error.  Proved for the 1D and 2D
evaluators cited by the claim; the `containers ≠ []` hypothesis rules out
the `ZeroDivisionError` of `containers_used / total_containers`, which the
same `except` turns into fitness `0`. -/
theorem C3_fitness_formula_and_error_to_zero :
    (∀ (prob : Opt1.Problem) (genome : List Int),
      (∀ r, Opt1.decode_solution prob genome = some r → prob.containers ≠ [] →
        Opt1.evaluate_fitness prob genome =
          r.total_efficiency *
            (1 - ((Opt1.containers_used r : ℚ) / (prob.containers.length : ℚ)) * (1/10))) ∧
      (Opt1.decode_solution prob genome = none →
        Opt1.evaluate_fitness prob genome = 0)) ∧
    (∀ (prob : Opt2.Problem) (genome : List Int),
      (∀ r, Opt2.decode_solution prob genome = some r → prob.containers ≠ [] →
        Opt2.evaluate_fitness prob genome =
          r.total_efficiency *
            (1 - ((Opt2.containers_used r : ℚ) / (prob.containers.length : ℚ)) * (1/10))) ∧
      (Opt2.decode_solution prob genome = none →
        Opt2.evaluate_fitness prob genome = 0)) := by
  constructor
  · intro prob genome
    constructor
    · intro r h hne
      have hlen : prob.containers.length ≠ 0 := by
        simpa [List.length_eq_zero] using hne
      simp only [Opt1.evaluate_fitness, h, if_neg hlen]
    · intro h
      simp only [Opt1.evaluate_fitness, h]
  · intro prob genome
    constructor
    · intro r h hne
      have hlen : prob.containers.length ≠ 0 := by
        simpa [List.length_eq_zero] using hne
      simp only [Opt2.evaluate_fitness, h, if_neg hlen]
    · intro h
      simp only [Opt2.evaluate_fitness, h]

/-- Concrete instantiation of C3: a too-short genome makes decoding raise
and fitness is 0; on a successful decode the formula is applied. -/
theorem C3_fitness_formula_and_error_to_zero_witness :
    Opt1.evaluate_fitness Scen.probA [1] = 0 ∧
    Opt2.evaluate_fitness Scen.probB [1] = 0 ∧
    Opt1.evaluate_fitness Scen.probA [1, 3] =
      Scen.rA.total_efficiency *
        (1 - ((Opt1.containers_used Scen.rA : ℚ) / (Scen.probA.containers.length : ℚ)) * (1/10)) ∧
    Opt2.evaluate_fitness Scen.probB [1, 5] =
      Scen.rB.total_efficiency *
        (1 - ((Opt2.containers_used Scen.rB : ℚ) / (Scen.probB.containers.length : ℚ)) * (1/10)) := by
  refine ⟨?_, ?_, ?_, ?_⟩
  · exact (C3_fitness_formula_and_error_to_zero.1 Scen.probA [1]).2 rfl
  · exact (C3_fitness_formula_and_error_to_zero.2 Scen.probB [1]).2 rfl
  · exact (C3_fitness_formula_and_error_to_zero.1 Scen.probA [1, 3]).1 Scen.rA rfl (by decide)
  · exact (C3_fitness_formula_and_error_to_zero.2 Scen.probB [1, 5]).1 Scen.rB rfl (by decide)

/-- C9 counterexample: the claim says `Optimizer1D.optimize` raises
`NameError` at its first statement, but the first statement (the
`self.logger.info` call, index 0) reads no unbound global name — the first
statement whose global lookup fails is statement 1,
`start_time = time.time()`. -/
theorem C9_first_statement_counterexample :
    ((PyMod.optimizeStmtGlobals.getD 0 []).all PyMod.nameBound = true) ∧
    PyMod.firstNameErrorStmt ≠ some 0 := by
  decide

/-- C9 (amended): `optimizer_1d.py` never binds `time`, so
`Optimizer1D.optimize` raises `NameError` at its second statement
(`start_time = time.time()`, index 1) on every call — hence no 1D
optimization run, including Scenario A's, can complete — while
`_decode_solution` and `_evaluate_fitness` read only bound globals and work
when called directly. -/
theorem C9_optimize_raises_nameerror_at_second_statement :
    PyMod.firstNameErrorStmt = some 1 ∧
    PyMod.nameBound "time" = false ∧
    PyMod.decodeSolutionGlobals.all PyMod.nameBound = true ∧
    PyMod.evaluateFitnessGlobals.all PyMod.nameBound = true := by
  decide

/-- Helper for C5: with the use gene nonzero and the quantity gene 5, the
Scenario B decode is independent of the use gene's exact value and of any
trailing genes. -/
theorem scenB_decode_eq (g0 : Int) (rest : List Int) (hg : g0 ≠ 0) :
    Opt2.decode_solution Scen.probB (g0 :: 5 :: rest) =
      Opt2.decode_solution Scen.probB [1, 5] := by
  unfold Opt2.decode_solution Opt2.decodeWithStats
  have hone : (1 : Int) ≠ 0 := by decide
  have hc : Opt2.decodeContainers Scen.probB Scen.probB.containers (g0 :: 5 :: rest)
      (Opt2.initUnplaced Scen.probB) =
      Opt2.decodeContainers Scen.probB Scen.probB.containers [1, 5]
      (Opt2.initUnplaced Scen.probB) := by
    rw [show Scen.probB.containers = [⟨"C", 10, 10, false⟩] from rfl]
    simp only [Opt2.decodeContainers, if_neg hg, if_neg hone, List.length_cons,
      List.length_nil, Nat.lt_one_iff, Nat.succ_ne_zero, List.take_succ_cons,
      List.take_zero, List.drop_succ_cons, List.drop_zero,
      show Scen.probB.packages.length = 1 from rfl]
  rw [hc]

/-- C5: for the 2D problem with one mandatory 10×10 container and one 5×5
package, any genome that uses the container and requests quantity 5 decodes
to at most 4 placed units in that container (they tile the full area) and
leaves at least one unit of the package type unplaced. -/
theorem C5_scenarioB_places_at_most_four :
    ∀ (g0 : Int) (rest : List Int) (r : Opt2.OptimizationResult),
      g0 ≠ 0 →
      Opt2.decode_solution Scen.probB (g0 :: 5 :: rest) = some r →
      (∀ sol ∈ r.container_solutions, sol.placed_packages.length ≤ 4) ∧
      1 ≤ r.unplaced_packages "P" := by
  intro g0 rest r hg hdec
  rw [scenB_decode_eq g0 rest hg] at hdec
  rw [show Opt2.decode_solution Scen.probB [1, 5] = some Scen.rB from rfl] at hdec
  cases hdec
  constructor
  · intro sol hsol
    rw [show Scen.rB.container_solutions = [Scen.solB] from rfl] at hsol
    rw [List.mem_singleton] at hsol
    subst hsol
    decide
  · decide

theorem scenA_tryRot0 :
    Opt1.tryRotations 0 10 [("A", 4)] = some ⟨"A", 0, 4, some "A"⟩ := rfl

theorem scenA_tryRot4 :
    Opt1.tryRotations 4 10 [("A", 4)] = some ⟨"A", 4, 4, some "A"⟩ := rfl

theorem scenA_tryRot8 : Opt1.tryRotations 8 10 [("A", 4)] = none := rfl

/-- Helper for C4: two or more requested units of `A` always decode to the
two placements at positions 0 and 4. -/
theorem scenA_placeUnits_big (k : Nat) (unp : String → Nat) :
    (Opt1.placeUnits [("A", 4)] "A" 10 (k + 2) (⟨[], 0, unp⟩ : Opt1.PlaceState)).1.placed =
      [⟨"A", 0, 4, some "A"⟩, ⟨"A", 4, 4, some "A"⟩] := by
  cases k with
  | zero => rfl
  | succ k2 =>
    simp [Opt1.placeUnits, scenA_tryRot0, scenA_tryRot4, scenA_tryRot8]

/-- C4: for the 1D Scenario A problem (one package `A` of length 4 with
quantity range [1,3], one mandatory container of length 10), decoding any
genome — in particular any genome a GA run would decode as its best
solution — places at most 2 units, every placed unit sits at position 0 or
position 4, and the utilization rate is 0.8 exactly when 2 units are
placed. -/
theorem C4_scenarioA_at_most_two_units :
    ∀ (genome : List Int) (r : Opt1.OptimizationResult),
      Opt1.decode_solution Scen.probA genome = some r →
      ∀ sol ∈ r.container_solutions,
        sol.placed_packages.length ≤ 2 ∧
        (∀ pp ∈ sol.placed_packages, pp.position = 0 ∨ pp.position = 4) ∧
        (sol.placed_packages.length = 2 → sol.utilization_rate = 8 / 10) := by
  intro genome r hdec
  obtain ⟨tr, hc⟩ := Opt1.decode_inv_d1 hdec
  match genome with
  | [] =>
    rw [show Scen.probA.containers = [⟨"C", 10, false⟩] from rfl] at hc
    simp [Opt1.decodeContainers] at hc
  | g0 :: genes2 =>
    by_cases hg : g0 = 0
    · subst hg
      rw [show Opt1.decodeContainers Scen.probA Scen.probA.containers
          ((0 : Int) :: genes2) (Opt1.initUnplaced Scen.probA) =
          some ([], [⟨"C", 10, false⟩], Opt1.initUnplaced Scen.probA, []) from rfl] at hc
      simp only [Option.some.injEq, Prod.mk.injEq] at hc
      intro sol hsol
      rw [← hc.1] at hsol
      cases hsol
    · match genes2 with
      | [] =>
        rw [show Scen.probA.containers = [⟨"C", 10, false⟩] from rfl] at hc
        simp only [Opt1.decodeContainers, if_neg hg] at hc
        rw [if_pos (show ([] : List Int).length < Scen.probA.packages.length by decide)] at hc
        cases hc
      | q :: rest =>
        rw [show Scen.probA.containers = [⟨"C", 10, false⟩] from rfl] at hc
        simp only [Opt1.decodeContainers, if_neg hg] at hc
        rw [if_neg (show ¬ (q :: rest).length < Scen.probA.packages.length by
          rw [show Scen.probA.packages.length = 1 from rfl]; simp)] at hc
        have hb : (Opt1.placePackages (Opt1.Container.length ⟨"C", 10, false⟩)
            (Scen.probA.packages.zip ((q :: rest).take Scen.probA.packages.length))
            (⟨[], 0, Opt1.initUnplaced Scen.probA⟩ : Opt1.PlaceState)).1 =
            (Opt1.placeUnits [("A", 4)] "A" 10 q.toNat
              (⟨[], 0, Opt1.initUnplaced Scen.probA⟩ : Opt1.PlaceState)).1 := rfl
        rw [hb] at hc
        match hqt : q.toNat with
        | 0 =>
          rw [hqt] at hc
          rw [show (Opt1.placeUnits [("A", 4)] "A" 10 0
            (⟨[], 0, Opt1.initUnplaced Scen.probA⟩ : Opt1.PlaceState)).1.placed = [] from rfl] at hc
          simp only [reduceIte] at hc
          simp only [Option.some.injEq, Prod.mk.injEq] at hc
          intro sol hsol
          rw [← hc.1] at hsol
          cases hsol
        | 1 =>
          rw [hqt] at hc
          rw [show (Opt1.placeUnits [("A", 4)] "A" 10 1
            (⟨[], 0, Opt1.initUnplaced Scen.probA⟩ : Opt1.PlaceState)).1.placed =
            [⟨"A", 0, 4, some "A"⟩] from rfl] at hc
          simp only [List.cons_ne_nil, if_false, reduceIte] at hc
          split at hc
          · exact Option.noConfusion hc
          simp only [Option.some.injEq, Prod.mk.injEq] at hc
          intro sol hsol
          rw [← hc.1] at hsol
          rw [List.mem_singleton] at hsol
          subst hsol
          refine ⟨by decide, ?_, by decide⟩
          intro pp hpp
          rw [List.mem_singleton] at hpp
          subst hpp
          left
          rfl
        | n + 2 =>
          rw [hqt] at hc
          rw [scenA_placeUnits_big n (Opt1.initUnplaced Scen.probA)] at hc
          simp only [List.cons_ne_nil, if_false, reduceIte] at hc
          split at hc
          · exact Option.noConfusion hc
          simp only [Option.some.injEq, Prod.mk.injEq] at hc
          intro sol hsol
          rw [← hc.1] at hsol
          rw [List.mem_singleton] at hsol
          subst hsol
          refine ⟨by decide, ?_, ?_⟩
          · intro pp hpp
            rcases List.mem_cons.mp hpp with h1 | h2
            · subst h1; left; rfl
            · rw [List.mem_singleton] at h2
              subst h2; right; rfl
          · intro _
            norm_num

/-- Concrete instantiation of C4 at genome `[1, 3]`. -/
theorem C4_scenarioA_at_most_two_units_witness :
    Scen.solA.placed_packages.length ≤ 2 ∧
    (Scen.ppA.position = 0 ∨ Scen.ppA.position = 4) ∧
    Scen.solA.utilization_rate = 8 / 10 := by
  have h := C4_scenarioA_at_most_two_units [1, 3] Scen.rA rfl Scen.solA
    (by rw [show Scen.rA.container_solutions = [Scen.solA] from rfl]; exact List.mem_singleton.mpr rfl)
  refine ⟨h.1, ?_, ?_⟩
  · exact h.2.1 Scen.ppA (by
      rw [show Scen.solA.placed_packages =
        [Scen.ppA, ⟨"A", 4, 4, some "A"⟩] from rfl]
      exact List.mem_cons_self _ _)
  · exact h.2.2 (by decide)

theorem opt2_mutateWalkP_miss {idx : Nat} {freshFor : Opt2.Package → Int} {ind : List Int} :
    ∀ {ps : List Opt2.Package} {g : Nat}, (idx < g ∨ g + ps.length ≤ idx) →
    Opt2.mutateWalkP idx freshFor ind ps g = (none, g + ps.length) := by
  intro ps
  induction ps with
  | nil => intro g h; simp [Opt2.mutateWalkP]
  | cons p t ih =>
    intro g h
    simp only [List.length_cons] at h
    simp only [Opt2.mutateWalkP, if_neg (show ¬ g = idx by omega)]
    rw [ih (by omega)]
    rw [show g + 1 + t.length = g + (t.length + 1) from by omega]
    simp [List.length_cons]

theorem opt2_mutateWalkP_hit {idx : Nat} {freshFor : Opt2.Package → Int} {ind : List Int} :
    ∀ {ps : List Opt2.Package} {g : Nat}, g ≤ idx → idx < g + ps.length →
    ∃ p, ps.get? (idx - g) = some p ∧
      Opt2.mutateWalkP idx freshFor ind ps g = (some (ind.set idx (freshFor p)), idx) := by
  intro ps
  induction ps with
  | nil => intro g h1 h2; simp at h2; omega
  | cons p t ih =>
    intro g h1 h2
    by_cases hg : g = idx
    · subst hg
      exact ⟨p, by simp, by simp [Opt2.mutateWalkP]⟩
    · simp only [List.length_cons] at h2
      obtain ⟨p2, hp2, hr⟩ := ih (g := g + 1) (by omega) (by omega)
      refine ⟨p2, ?_, ?_⟩
      · rw [show idx - g = (idx - (g + 1)) + 1 from by omega]
        simpa using hp2
      · simp only [Opt2.mutateWalkP, if_neg hg]
        exact hr

theorem opt2_mutateWalkC_lt {packages : List Opt2.Package} {idx : Nat}
    {freshFor : Opt2.Package → Int} {ind : List Int} :
    ∀ {cs : List Opt2.Container} {g : Nat}, idx < g →
    Opt2.mutateWalkC packages idx freshFor ind cs g = ind := by
  intro cs
  induction cs with
  | nil => intro g h; rfl
  | cons c t ih =>
    intro g h
    have hb : (decide (g = idx) && c.is_optional) = false := by
      have hne : g ≠ idx := by omega
      simp [hne]
    simp only [Opt2.mutateWalkC, hb, Bool.false_eq_true, if_false]
    rw [@opt2_mutateWalkP_miss _ freshFor ind packages (g + 1) (Or.inl (by omega))]
    dsimp only
    exact ih (by omega)

theorem opt2_geneKindFrom_shift {packages : List Opt2.Package} {c : Opt2.Container}
    {cs : List Opt2.Container} {off : Nat} (h : packages.length + 1 ≤ off) :
    Opt2.geneKindFrom packages (c :: cs) off =
      Opt2.geneKindFrom packages cs (off - (packages.length + 1)) := by
  unfold Opt2.geneKindFrom
  dsimp only
  have hB : 0 < packages.length + 1 := Nat.succ_pos _
  have hdiv : off / (packages.length + 1) =
      (off - (packages.length + 1)) / (packages.length + 1) + 1 :=
    Nat.div_eq_sub_div hB h
  have hmod : off % (packages.length + 1) = (off - (packages.length + 1)) % (packages.length + 1) :=
    Nat.mod_eq_sub_mod h
  rw [hdiv, hmod]
  simp [Nat.succ_lt_succ_iff]

theorem opt2_mutateWalkC_from {packages : List Opt2.Package} {idx : Nat}
    {freshFor : Opt2.Package → Int} {ind : List Int} :
    ∀ (cs : List Opt2.Container) (g : Nat), g ≤ idx →
    Opt2.mutateWalkC packages idx freshFor ind cs g =
      Opt2.applyKind idx freshFor ind (Opt2.geneKindFrom packages cs (idx - g)) := by
  intro cs
  induction cs with
  | nil =>
    intro g _
    simp [Opt2.mutateWalkC, Opt2.geneKindFrom, Opt2.applyKind]
  | cons c t ih =>
    intro g hg
    by_cases h0 : g = idx
    · subst h0
      cases hopt : c.is_optional with
      | true =>
        simp only [Opt2.mutateWalkC, hopt]
        rw [if_pos (by simp)]
        have hk : Opt2.geneKindFrom packages (c :: t) (g - g) = some (Sum.inl c) := by
          simp [Opt2.geneKindFrom, Nat.sub_self]
        rw [hk]
        simp [Opt2.applyKind, hopt]
      | false =>
        simp only [Opt2.mutateWalkC, hopt]
        rw [if_neg (by simp)]
        rw [@opt2_mutateWalkP_miss _ freshFor ind packages (g + 1) (Or.inl (by omega))]
        dsimp only
        rw [opt2_mutateWalkC_lt (by omega)]
        have hk : Opt2.geneKindFrom packages (c :: t) (g - g) = some (Sum.inl c) := by
          simp [Opt2.geneKindFrom, Nat.sub_self]
        rw [hk]
        simp [Opt2.applyKind, hopt]
    · by_cases hin : idx < g + 1 + packages.length
      · obtain ⟨p, hp, hr⟩ := @opt2_mutateWalkP_hit idx freshFor ind packages (g + 1)
          (by omega) (by omega)
        simp only [Opt2.mutateWalkC]
        rw [if_neg (by simp [h0])]
        rw [hr]
        have hk : Opt2.geneKindFrom packages (c :: t) (idx - g) = some (Sum.inr p) := by
          unfold Opt2.geneKindFrom
          dsimp only
          have hlt : idx - g < packages.length + 1 := by omega
          have hne : idx - g ≠ 0 := by omega
          rw [Nat.div_eq_of_lt hlt, Nat.mod_eq_of_lt hlt]
          rw [if_pos (by simp), if_neg hne]
          rw [show idx - g - 1 = idx - (g + 1) from by omega, hp]
          rfl
        rw [hk]
        rfl
      · simp only [Opt2.mutateWalkC]
        rw [if_neg (by simp [h0])]
        rw [@opt2_mutateWalkP_miss _ freshFor ind packages (g + 1) (Or.inr (by omega))]
        dsimp only
        rw [ih (g + 1 + packages.length) (by omega)]
        rw [opt2_geneKindFrom_shift (show packages.length + 1 ≤ idx - g from by omega)]
        rw [show idx - g - (packages.length + 1) = idx - (g + 1 + packages.length) from by omega]

theorem opt1_mutateWalkP_miss {idx : Nat} {freshFor : Opt1.Package → Int} {ind : List Int} :
    ∀ {ps : List Opt1.Package} {g : Nat}, (idx < g ∨ g + ps.length ≤ idx) →
    Opt1.mutateWalkP idx freshFor ind ps g = (none, g + ps.length) := by
  intro ps
  induction ps with
  | nil => intro g h; simp [Opt1.mutateWalkP]
  | cons p t ih =>
    intro g h
    simp only [List.length_cons] at h
    simp only [Opt1.mutateWalkP, if_neg (show ¬ g = idx by omega)]
    rw [ih (by omega)]
    rw [show g + 1 + t.length = g + (t.length + 1) from by omega]
    simp [List.length_cons]

theorem opt1_mutateWalkP_hit {idx : Nat} {freshFor : Opt1.Package → Int} {ind : List Int} :
    ∀ {ps : List Opt1.Package} {g : Nat}, g ≤ idx → idx < g + ps.length →
    ∃ p, ps.get? (idx - g) = some p ∧
      Opt1.mutateWalkP idx freshFor ind ps g = (some (ind.set idx (freshFor p)), idx) := by
  intro ps
  induction ps with
  | nil => intro g h1 h2; simp at h2; omega
  | cons p t ih =>
    intro g h1 h2
    by_cases hg : g = idx
    · subst hg
      exact ⟨p, by simp, by simp [Opt1.mutateWalkP]⟩
    · simp only [List.length_cons] at h2
      obtain ⟨p2, hp2, hr⟩ := ih (g := g + 1) (by omega) (by omega)
      refine ⟨p2, ?_, ?_⟩
      · rw [show idx - g = (idx - (g + 1)) + 1 from by omega]
        simpa using hp2
      · simp only [Opt1.mutateWalkP, if_neg hg]
        exact hr

theorem opt1_mutateWalkC_lt {packages : List Opt1.Package} {idx : Nat}
    {freshFor : Opt1.Package → Int} {ind : List Int} :
    ∀ {cs : List Opt1.Container} {g : Nat}, idx < g →
    Opt1.mutateWalkC packages idx freshFor ind cs g = ind := by
  intro cs
  induction cs with
  | nil => intro g h; rfl
  | cons c t ih =>
    intro g h
    simp only [Opt1.mutateWalkC]
    rw [if_neg (show ¬ g = idx by omega)]
    rw [@opt1_mutateWalkP_miss _ freshFor ind packages (g + 1) (Or.inl (by omega))]
    dsimp only
    exact ih (by omega)

theorem opt1_geneKindFrom_shift {packages : List Opt1.Package} {c : Opt1.Container}
    {cs : List Opt1.Container} {off : Nat} (h : packages.length + 1 ≤ off) :
    Opt1.geneKindFrom packages (c :: cs) off =
      Opt1.geneKindFrom packages cs (off - (packages.length + 1)) := by
  unfold Opt1.geneKindFrom
  dsimp only
  have hB : 0 < packages.length + 1 := Nat.succ_pos _
  have hdiv : off / (packages.length + 1) =
      (off - (packages.length + 1)) / (packages.length + 1) + 1 :=
    Nat.div_eq_sub_div hB h
  have hmod : off % (packages.length + 1) = (off - (packages.length + 1)) % (packages.length + 1) :=
    Nat.mod_eq_sub_mod h
  rw [hdiv, hmod]
  simp [Nat.succ_lt_succ_iff]

theorem opt1_mutateWalkC_from {packages : List Opt1.Package} {idx : Nat}
    {freshFor : Opt1.Package → Int} {ind : List Int} :
    ∀ (cs : List Opt1.Container) (g : Nat), g ≤ idx →
    Opt1.mutateWalkC packages idx freshFor ind cs g =
      Opt1.applyKind idx freshFor ind (Opt1.geneKindFrom packages cs (idx - g)) := by
  intro cs
  induction cs with
  | nil =>
    intro g _
    simp [Opt1.mutateWalkC, Opt1.geneKindFrom, Opt1.applyKind]
  | cons c t ih =>
    intro g hg
    by_cases h0 : g = idx
    · subst h0
      simp only [Opt1.mutateWalkC, if_true]
      have hk : Opt1.geneKindFrom packages (c :: t) (g - g) = some (Sum.inl c) := by
        simp [Opt1.geneKindFrom, Nat.sub_self]
      rw [hk]
      rfl
    · by_cases hin : idx < g + 1 + packages.length
      · obtain ⟨p, hp, hr⟩ := @opt1_mutateWalkP_hit idx freshFor ind packages (g + 1)
          (by omega) (by omega)
        simp only [Opt1.mutateWalkC]
        rw [if_neg h0]
        rw [hr]
        have hk : Opt1.geneKindFrom packages (c :: t) (idx - g) = some (Sum.inr p) := by
          unfold Opt1.geneKindFrom
          dsimp only
          have hlt : idx - g < packages.length + 1 := by omega
          have hne : idx - g ≠ 0 := by omega
          rw [Nat.div_eq_of_lt hlt, Nat.mod_eq_of_lt hlt]
          rw [if_pos (by simp), if_neg hne]
          rw [show idx - g - 1 = idx - (g + 1) from by omega, hp]
          rfl
        rw [hk]
        rfl
      · simp only [Opt1.mutateWalkC]
        rw [if_neg h0]
        rw [@opt1_mutateWalkP_miss _ freshFor ind packages (g + 1) (Or.inr (by omega))]
        dsimp only
        rw [ih (g + 1 + packages.length) (by omega)]
        rw [opt1_geneKindFrom_shift (show packages.length + 1 ≤ idx - g from by omega)]
        rw [show idx - g - (packages.length + 1) = idx - (g + 1 + packages.length) from by omega]

/-- C6 counterexample: with `mutation_probability = 1/2` an individual is
selected for mutation (outer draw 0 < 1/2), yet because of the hard-coded
inner `random.random() < 0.1` gate (inner draw 1/2), `_mutate_individual`
returns the individual unchanged — no gene changes, contradicting the
claim that exactly one uniformly chosen gene changes whenever an individual
is mutated. -/
theorem C6_exactly_one_gene_changes_counterexample :
    ((0 : ℚ) < 1/2) ∧
    Opt2.mutationStep Scen.probM (1/2) 0 (1/2) 0 (fun _ => 3) [1, 2] = [1, 2] := by
  constructor
  · norm_num
  · unfold Opt2.mutationStep Opt2.mutate_individual
    rw [if_pos (show (0 : ℚ) < 1/2 by norm_num),
      if_neg (show ¬ ((1 : ℚ)/2 < 1/10) by norm_num)]

/-- C6 (amended): each individual enters `_mutate_individual` with
probability `mutation_probability`; inside, with the hard-coded probability
`0.1`, one uniformly chosen gene index is selected and updated according to
the gene layout: an optional container's usage gene is flipped, a
package-quantity gene is resampled within `[min_quantity, max_quantity]` of
the corresponding package, and a non-optional container's usage gene (and
an index past the layout) leaves the individual unchanged; with the
remaining probability `0.9` the individual is returned unchanged.
Proved for the cited 2D and 1D mutation operators. -/
theorem C6_mutation_step_amended :
    (∀ (prob : Opt2.Problem) (pmut rOuter r : ℚ) (idx : Nat)
       (freshFor : Opt2.Package → Int) (ind : List Int),
      (¬ rOuter < pmut → Opt2.mutationStep prob pmut rOuter r idx freshFor ind = ind) ∧
      (rOuter < pmut →
        Opt2.mutationStep prob pmut rOuter r idx freshFor ind =
          (if r < 1/10 then Opt2.applyKind idx freshFor ind (Opt2.geneKind prob idx)
           else ind))) ∧
    (∀ (prob : Opt1.Problem) (pmut rOuter r : ℚ) (idx : Nat)
       (freshFor : Opt1.Package → Int) (ind : List Int),
      (¬ rOuter < pmut → Opt1.mutationStep prob pmut rOuter r idx freshFor ind = ind) ∧
      (rOuter < pmut →
        Opt1.mutationStep prob pmut rOuter r idx freshFor ind =
          (if r < 1/10 then Opt1.applyKind idx freshFor ind (Opt1.geneKind prob idx)
           else ind))) := by
  constructor
  · intro prob pmut rOuter r idx freshFor ind
    constructor
    · intro h
      simp [Opt2.mutationStep, h]
    · intro h
      simp only [Opt2.mutationStep, if_pos h, Opt2.mutate_individual]
      by_cases hr : r < 1/10
      · rw [if_pos hr, if_pos hr]
        rw [opt2_mutateWalkC_from prob.containers 0 (Nat.zero_le idx)]
        rw [Nat.sub_zero]
        rfl
      · rw [if_neg hr, if_neg hr]
  · intro prob pmut rOuter r idx freshFor ind
    constructor
    · intro h
      simp [Opt1.mutationStep, h]
    · intro h
      simp only [Opt1.mutationStep, if_pos h, Opt1.mutate_individual]
      by_cases hr : r < 1/10
      · rw [if_pos hr, if_pos hr]
        rw [opt1_mutateWalkC_from prob.containers 0 (Nat.zero_le idx)]
        rw [Nat.sub_zero]
        rfl
      · rw [if_neg hr, if_neg hr]

/-- Concrete instantiation of C6 (amended): an unselected individual is
unchanged; a selected one with the inner gate passed resamples the chosen
quantity gene. -/
theorem C6_mutation_step_amended_witness :
    Opt2.mutationStep Scen.probM (1/2) (3/4) (1/20) 1 (fun _ => 4) [1, 2] = [1, 2] ∧
    Opt2.mutationStep Scen.probM (1/2) 0 (1/20) 1 (fun _ => 4) [1, 2] =
      (if (1/20 : ℚ) < 1/10 then
        Opt2.applyKind 1 (fun _ => 4) [1, 2] (Opt2.geneKind Scen.probM 1)
       else [1, 2]) := by
  constructor
  · exact (C6_mutation_step_amended.1 Scen.probM (1/2) (3/4) (1/20) 1
      (fun _ => 4) [1, 2]).1 (by norm_num)
  · exact (C6_mutation_step_amended.1 Scen.probM (1/2) 0 (1/20) 1
      (fun _ => 4) [1, 2]).2 (by norm_num)

namespace Val

theorem ite_singleton_eq_nil (b : Bool) (m : String) :
    ((if b = true then [m] else []) = []) ↔ b = false := by
  cases b <;> simp

theorem validate_package_nil_iff (p : VPackage) :
    validate_package p = [] ↔ packageBad p = false := by
  simp only [validate_package, packageBad, List.append_eq_nil, ite_singleton_eq_nil,
    Bool.or_eq_false_iff, and_assoc]

theorem validate_container_nil_iff (c : VContainer) :
    validate_container c = [] ↔ containerBad c = false := by
  simp only [validate_container, containerBad, List.append_eq_nil, ite_singleton_eq_nil,
    Bool.or_eq_false_iff, and_assoc]

theorem prefixedErrors_nil_iff (tag : String) (f : α → List String) :
    ∀ (l : List α) (i : Nat), prefixedErrors tag f l i = [] ↔ ∀ a ∈ l, f a = [] := by
  intro l
  induction l with
  | nil => intro i; simp [prefixedErrors]
  | cons a t ih =>
    intro i
    simp [prefixedErrors, List.append_eq_nil, ih (i + 1)]

theorem packageDimSet_nonempty {pr : VProblem} (h : pr.packages ≠ []) :
    (packageDimSet pr).Nonempty := by
  match hp : pr.packages with
  | [] => exact absurd hp h
  | p :: t =>
    refine ⟨p.dimensions.length, ?_⟩
    simp [packageDimSet, hp]

theorem containerDimSet_nonempty {pr : VProblem} (h : pr.containers ≠ []) :
    (containerDimSet pr).Nonempty := by
  match hp : pr.containers with
  | [] => exact absurd hp h
  | c :: t =>
    refine ⟨c.dimensions.length, ?_⟩
    simp [containerDimSet, hp]

theorem unionDims_toFinset (pr : VProblem) :
    (unionDims pr).toFinset = packageDimSet pr ∪ containerDimSet pr := by
  simp [unionDims, packageDimSet, containerDimSet]

/-- Bridge between the claim's single mixed-dimensionality condition and
the code's three separate checks, in the nonempty case. -/
theorem unionDims_card_le_one_iff {pr : VProblem}
    (hp : pr.packages ≠ []) (hc : pr.containers ≠ []) :
    (unionDims pr).toFinset.card ≤ 1 ↔
      ((packageDimSet pr).card ≤ 1 ∧ (containerDimSet pr).card ≤ 1 ∧
        packageDimSet pr = containerDimSet pr) := by
  rw [unionDims_toFinset]
  constructor
  · intro h
    have hsubp : packageDimSet pr ⊆ packageDimSet pr ∪ containerDimSet pr :=
      Finset.subset_union_left
    have hsubc : containerDimSet pr ⊆ packageDimSet pr ∪ containerDimSet pr :=
      Finset.subset_union_right
    refine ⟨le_trans (Finset.card_le_card hsubp) h,
      le_trans (Finset.card_le_card hsubc) h, ?_⟩
    have hone := Finset.card_le_one.mp h
    obtain ⟨x, hx⟩ := packageDimSet_nonempty hp
    obtain ⟨y, hy⟩ := containerDimSet_nonempty hc
    apply Finset.ext
    intro z
    constructor
    · intro hz
      have h1 := hone z (hsubp hz) y (hsubc hy)
      rw [h1]; exact hy
    · intro hz
      have h1 := hone z (hsubc hz) x (hsubp hx)
      rw [h1]; exact hx
  · rintro ⟨h1, _h2, h3⟩
    rw [← h3, Finset.union_self]
    exact h1

/-- Characterization of an error-free `validate_packing_problem` run. -/
theorem validate_nil_iff (pr : VProblem) :
    validate_packing_problem pr = [] ↔
      (pr.packages ≠ [] ∧ (∀ p ∈ pr.packages, packageBad p = false) ∧
       pr.containers ≠ [] ∧ (∀ c ∈ pr.containers, containerBad c = false) ∧
       (packageDimSet pr).card ≤ 1 ∧ (containerDimSet pr).card ≤ 1 ∧
       packageDimSet pr = containerDimSet pr ∧ rotationBad pr = false) := by
  unfold validate_packing_problem
  rw [List.append_eq_nil, List.append_eq_nil, List.append_eq_nil]
  constructor
  · rintro ⟨⟨⟨hpkg, hcont⟩, hdims⟩, hrot⟩
    have hp : pr.packages ≠ [] := by
      intro he
      rw [if_pos (by simp [he])] at hpkg
      cases hpkg
    have hcne : pr.containers ≠ [] := by
      intro he
      rw [if_pos (by simp [he])] at hcont
      cases hcont
    rw [if_neg (by simp [hp])] at hpkg
    rw [if_neg (by simp [hcne])] at hcont
    have hpkg2 : ∀ p ∈ pr.packages, packageBad p = false := by
      intro p hmem
      exact (validate_package_nil_iff p).mp
        (((prefixedErrors_nil_iff _ _ pr.packages 0).mp hpkg) p hmem)
    have hcont2 : ∀ c ∈ pr.containers, containerBad c = false := by
      intro c hmem
      exact (validate_container_nil_iff c).mp
        (((prefixedErrors_nil_iff _ _ pr.containers 0).mp hcont) c hmem)
    rw [if_pos (by simp [hp, hcne, List.isEmpty_iff])] at hdims
    rw [List.append_eq_nil, List.append_eq_nil] at hdims
    obtain ⟨⟨hd1, hd2⟩, hd3⟩ := hdims
    have hcard1 : (packageDimSet pr).card ≤ 1 := by
      by_contra hgt
      rw [if_pos (by simpa using Nat.lt_of_not_le hgt)] at hd1
      cases hd1
    have hcard2 : (containerDimSet pr).card ≤ 1 := by
      by_contra hgt
      rw [if_pos (by simpa using Nat.lt_of_not_le hgt)] at hd2
      cases hd2
    have heq : packageDimSet pr = containerDimSet pr := by
      by_contra hne
      rw [if_pos (by
        simp [packageDimSet_nonempty hp, containerDimSet_nonempty hcne, hne])] at hd3
      cases hd3
    have hrot2 : rotationBad pr = false := by
      unfold rotationBad
      cases har : pr.allowed_rotations with
      | none => rfl
      | some ar =>
        simp only [har] at hrot
        by_cases hlen : ar.length ≠ pr.packages.length
        · rw [if_pos hlen] at hrot
          cases hrot
        · simp [hlen]
    exact ⟨hp, hpkg2, hcne, hcont2, hcard1, hcard2, heq, hrot2⟩
  · rintro ⟨hp, hpkg2, hcne, hcont2, hcard1, hcard2, heq, hrot2⟩
    refine ⟨⟨⟨?_, ?_⟩, ?_⟩, ?_⟩
    · rw [if_neg (by simp [hp])]
      rw [prefixedErrors_nil_iff]
      intro p hmem
      exact (validate_package_nil_iff p).mpr (hpkg2 p hmem)
    · rw [if_neg (by simp [hcne])]
      rw [prefixedErrors_nil_iff]
      intro c hmem
      exact (validate_container_nil_iff c).mpr (hcont2 c hmem)
    · rw [if_pos (by simp [hp, hcne, List.isEmpty_iff])]
      rw [List.append_eq_nil, List.append_eq_nil]
      refine ⟨⟨?_, ?_⟩, ?_⟩
      · rw [if_neg (by simpa using Nat.not_lt.mpr hcard1)]
      · rw [if_neg (by simpa using Nat.not_lt.mpr hcard2)]
      · rw [if_neg (by simp [heq])]
    · unfold rotationBad at hrot2
      cases har : pr.allowed_rotations with
      | none => simp [har]
      | some ar =>
        simp only [har] at hrot2 ⊢
        rw [if_neg (by simpa using hrot2)]

theorem packageCtorFails_false_iff (p : VPackage) :
    packageCtorFails p = false ↔
      (¬ p.min_quantity < 0 ∧ ¬ p.max_quantity < p.min_quantity ∧
       badDimCount p.dimensions = false ∧ anyNonPositive p.dimensions = false) := by
  simp [packageCtorFails, Bool.or_eq_false_iff, and_assoc]

theorem containerCtorFails_false_iff (c : VContainer) :
    containerCtorFails c = false ↔
      (badDimCount c.dimensions = false ∧ anyNonPositive c.dimensions = false) := by
  simp [containerCtorFails, Bool.or_eq_false_iff]

theorem packageBad_false_iff (p : VPackage) :
    packageBad p = false ↔
      (isBlank p.name = false ∧ badDimCount p.dimensions = false ∧
       anyNonPositive p.dimensions = false ∧ ¬ p.min_quantity < 0 ∧
       ¬ p.max_quantity < p.min_quantity ∧ optNeg p.weight = false ∧
       optNeg p.value = false) := by
  simp [packageBad, Bool.or_eq_false_iff, and_assoc]

theorem containerBad_false_iff (c : VContainer) :
    containerBad c = false ↔
      (isBlank c.id = false ∧ badDimCount c.dimensions = false ∧
       anyNonPositive c.dimensions = false ∧ optNonPos c.max_weight = false ∧
       optNeg c.cost = false) := by
  simp [containerBad, Bool.or_eq_false_iff, and_assoc]

theorem constructFails_false_iff (pr : VProblem) :
    constructFails pr = false ↔
      ((∀ p ∈ pr.packages, packageCtorFails p = false) ∧
       (∀ c ∈ pr.containers, containerCtorFails c = false) ∧
       pr.packages ≠ [] ∧ pr.containers ≠ [] ∧
       (packageDimSet pr).card ≤ 1 ∧ (containerDimSet pr).card ≤ 1 ∧
       packageDimSet pr = containerDimSet pr) := by
  simp [constructFails, Bool.or_eq_false_iff, List.any_eq_false,
    decide_eq_false_iff_not, Nat.not_lt, List.isEmpty_iff, and_assoc]

theorem amended_false_iff (pr : VProblem) :
    amendedFailCondition pr = false ↔
      (pr.packages ≠ [] ∧ pr.containers ≠ [] ∧
       (∀ p ∈ pr.packages, badDimCount p.dimensions = false) ∧
       (∀ c ∈ pr.containers, badDimCount c.dimensions = false) ∧
       (∀ p ∈ pr.packages, anyNonPositive p.dimensions = false) ∧
       (∀ c ∈ pr.containers, anyNonPositive c.dimensions = false) ∧
       (∀ p ∈ pr.packages, ¬ p.min_quantity < 0) ∧
       (∀ p ∈ pr.packages, ¬ p.max_quantity < p.min_quantity) ∧
       (unionDims pr).toFinset.card ≤ 1 ∧
       rotationBad pr = false ∧
       (∀ p ∈ pr.packages, isBlank p.name = false) ∧
       (∀ c ∈ pr.containers, isBlank c.id = false) ∧
       (∀ p ∈ pr.packages, optNeg p.weight = false) ∧
       (∀ p ∈ pr.packages, optNeg p.value = false) ∧
       (∀ c ∈ pr.containers, optNonPos c.max_weight = false) ∧
       (∀ c ∈ pr.containers, optNeg c.cost = false)) := by
  simp [amendedFailCondition, claimedFailCondition, Bool.or_eq_false_iff,
    List.any_eq_false, decide_eq_false_iff_not, Nat.not_lt, List.isEmpty_iff, and_assoc]

/-- Core equivalence for C7: the negative side — neither construction nor
validation fails exactly when none of the amended conditions holds. -/
theorem noFail_iff_amended_false (pr : VProblem) :
    (constructFails pr = false ∧ validate_packing_problem pr = []) ↔
      amendedFailCondition pr = false := by
  rw [constructFails_false_iff, validate_nil_iff, amended_false_iff]
  constructor
  · rintro ⟨⟨hctp, hctc, hp, hc, _hc1, _hc2, _he⟩,
      ⟨_hp2, hbad, _hc3, hcbad, hcard1, hcard2, heq, hrot⟩⟩
    refine ⟨hp, hc, ?_, ?_, ?_, ?_, ?_, ?_, ?_, hrot, ?_, ?_, ?_, ?_, ?_, ?_⟩
    · exact fun p hm => ((packageBad_false_iff p).mp (hbad p hm)).2.1
    · exact fun c hm => ((containerBad_false_iff c).mp (hcbad c hm)).2.1
    · exact fun p hm => ((packageBad_false_iff p).mp (hbad p hm)).2.2.1
    · exact fun c hm => ((containerBad_false_iff c).mp (hcbad c hm)).2.2.1
    · exact fun p hm => ((packageBad_false_iff p).mp (hbad p hm)).2.2.2.1
    · exact fun p hm => ((packageBad_false_iff p).mp (hbad p hm)).2.2.2.2.1
    · exact (unionDims_card_le_one_iff hp hc).mpr ⟨hcard1, hcard2, heq⟩
    · exact fun p hm => ((packageBad_false_iff p).mp (hbad p hm)).1
    · exact fun c hm => ((containerBad_false_iff c).mp (hcbad c hm)).1
    · exact fun p hm => ((packageBad_false_iff p).mp (hbad p hm)).2.2.2.2.2.1
    · exact fun p hm => ((packageBad_false_iff p).mp (hbad p hm)).2.2.2.2.2.2
    · exact fun c hm => ((containerBad_false_iff c).mp (hcbad c hm)).2.2.2.1
    · exact fun c hm => ((containerBad_false_iff c).mp (hcbad c hm)).2.2.2.2
  · rintro ⟨hp, hc, hbdp, hbdc, hnpp, hnpc, hminp, hmaxp, hucard, hrot,
      hblp, hblc, hwp, hvp, hmwc, hcc⟩
    obtain ⟨hcard1, hcard2, heq⟩ := (unionDims_card_le_one_iff hp hc).mp hucard
    refine ⟨⟨?_, ?_, hp, hc, hcard1, hcard2, heq⟩,
      ⟨hp, ?_, hc, ?_, hcard1, hcard2, heq, hrot⟩⟩
    · exact fun p hm => (packageCtorFails_false_iff p).mpr
        ⟨hminp p hm, hmaxp p hm, hbdp p hm, hnpp p hm⟩
    · exact fun c hm => (containerCtorFails_false_iff c).mpr ⟨hbdc c hm, hnpc c hm⟩
    · exact fun p hm => (packageBad_false_iff p).mpr
        ⟨hblp p hm, hbdp p hm, hnpp p hm, hminp p hm, hmaxp p hm, hwp p hm, hvp p hm⟩
    · exact fun c hm => (containerBad_false_iff c).mpr
        ⟨hblc c hm, hbdc c hm, hnpc c hm, hmwc c hm, hcc c hm⟩

end Val

/-- C7 counterexample: a problem whose only defect is a whitespace-only
package name.  None of the claim's listed failure conditions holds
(`claimedFailCondition` is false, and construction indeed succeeds), yet
`validate_packing_problem` reports an error — so construction-or-validation
does not fail "exactly when" the claim's list says. -/
theorem C7_invalid_problem_exactly_when_counterexample :
    Val.constructFails Scen.prBlank = false ∧
    Val.claimedFailCondition Scen.prBlank = false ∧
    Val.validate_packing_problem Scen.prBlank ≠ [] := by
  refine ⟨by decide, by decide, by decide⟩

/-- C7 (amended): constructing or validating a `PackingProblem` fails
exactly when one of the claim's listed conditions holds — empty package or
container list, a dimension count outside {1,2,3}, a non-positive
dimension, a negative `min_quantity`, `max_quantity < min_quantity`, mixed
dimensionalities among the packages and containers, or a
rotation-permission length mismatch — or one of the further conditions the
validators check: a blank package name or container id, a negative weight
or value, a non-positive `max_weight`, or a negative cost.  Validation
failure makes `optimize_packing` reject the problem before any optimizer
(GA engine) is instantiated. -/
theorem C7_invalid_problem_amended :
    (∀ pr : Val.VProblem,
      (Val.constructFails pr = true ∨ Val.validate_packing_problem pr ≠ []) ↔
        Val.amendedFailCondition pr = true) ∧
    (∀ pr : Val.VProblem, Val.validate_packing_problem pr ≠ [] →
      Val.optimize_packing pr = Val.ServiceOutcome.rejected (Val.validate_packing_problem pr)) := by
  constructor
  · intro pr
    constructor
    · rintro (hcf | hval)
      · by_contra hne
        rw [Bool.not_eq_true] at hne
        have h2 := (Val.noFail_iff_amended_false pr).mpr hne
        rw [h2.1] at hcf
        cases hcf
      · by_contra hne
        rw [Bool.not_eq_true] at hne
        have h2 := (Val.noFail_iff_amended_false pr).mpr hne
        exact hval h2.2
    · intro hamd
      by_cases hcf : Val.constructFails pr = true
      · exact Or.inl hcf
      · right
        intro hval
        rw [Bool.not_eq_true] at hcf
        have h2 := (Val.noFail_iff_amended_false pr).mp ⟨hcf, hval⟩
        rw [h2] at hamd
        cases hamd
  · intro pr h
    unfold Val.optimize_packing
    rw [if_neg h]

/-- Concrete instantiation of C7 (amended) on Scenario D (2D packages, 3D
containers): the amended condition holds, so construction or validation
fails, and the service rejects the problem before instantiating a GA
engine. -/
theorem C7_invalid_problem_amended_witness :
    (Val.constructFails Scen.prD = true ∨ Val.validate_packing_problem Scen.prD ≠ []) ∧
    Val.optimize_packing Scen.prD =
      Val.ServiceOutcome.rejected (Val.validate_packing_problem Scen.prD) := by
  constructor
  · exact (C7_invalid_problem_amended.1 Scen.prD).mpr (by decide)
  · exact C7_invalid_problem_amended.2 Scen.prD (by decide)

/-- Concrete instantiation of C5 at genome `[1, 5]`. -/
theorem C5_scenarioB_places_at_most_four_witness :
    Scen.solB.placed_packages.length ≤ 4 ∧ 1 ≤ Scen.rB.unplaced_packages "P" := by
  have h := C5_scenarioB_places_at_most_four 1 [] Scen.rB (by decide) rfl
  refine ⟨?_, h.2⟩
  exact h.1 Scen.solB
    (by rw [show Scen.rB.container_solutions = [Scen.solB] from rfl]; exact List.mem_singleton.mpr rfl)

end BinPack
